import Mathlib

/-!
Verification development for the RistrettoDB storage engine.

The definitions below are a shallow embedding of the C sources:
`table_v2.c` (Engine B, the append-only table), `btree.c` (the ordered
integer index), `storage.c` (Engine A row storage and scanner),
`query.c` (planner and executor) and `db.c` (the public entry points).
Machine integers are modelled as `Nat`/`Int` with explicit reductions
modulo `2 ^ w`; byte buffers are lists of `Nat` (each entry one byte);
`NULL`-able C pointers become `Option`; fallible functions return
`Option`, or a `Bool` paired with the resulting state.  File descriptors,
`mmap`, `msync` and the wall clock are outside the embedding: system
calls are modelled as succeeding, and the time-based sync condition of
`table_append_row` is not modelled.  A C `double` is carried as its
64-bit pattern (a `Nat`); IEEE-754 arithmetic never decides any claim.
-/

namespace RistrettoSpec

/-- Little-endian byte image of the low 64 bits of a natural number,
modelling an 8-byte `memcpy` of a 64-bit scalar. -/
def le64 (v : Nat) : List Nat :=
  (List.range 8).map (fun i => v / 256 ^ i % 256)

/-- Read back a little-endian 64-bit scalar from (the first 8 bytes of) a
byte list. -/
def fromLe64 (bs : List Nat) : Nat :=
  (bs.take 8).foldr (fun b acc => acc * 256 + b) 0

/-- Two's-complement bit pattern of an `int64_t`, as a natural number. -/
def toPattern64 (i : Int) : Nat := (i % (2 ^ 64 : Int)).toNat

/-- Signed reading of a 64-bit pattern, inverse of `toPattern64` on the
`int64_t` range. -/
def ofPattern64 (n : Nat) : Int :=
  if n < 2 ^ 63 then (n : Int) else (n : Int) - 2 ^ 64

/-- Splice `bs` over `buf` starting at byte offset `off`, modelling a
`memcpy` into a row buffer. -/
def writeBytes (buf : List Nat) (off : Nat) (bs : List Nat) : List Nat :=
  buf.take off ++ bs ++ buf.drop (off + bs.length)

/-- Read `n` bytes of `buf` starting at offset `off`. -/
def readBytes (buf : List Nat) (off n : Nat) : List Nat :=
  (buf.drop off).take n

namespace TableV2

/-- Column type tags of `table_v2.h` (`COL_TYPE_INTEGER`, `COL_TYPE_REAL`,
`COL_TYPE_TEXT`, `COL_TYPE_NULLABLE`). -/
inductive ColumnType where
  | integer
  | real
  | text
  | nullable
deriving DecidableEq, Repr

/-- On-disk column descriptor (`ColumnDesc`): column name (the schema
parser keeps at most 7 characters), type tag, slot length in bytes and
byte offset within a packed row. -/
structure ColumnDesc where
  name : List Char
  type : ColumnType
  length : Nat
  offset : Nat
deriving DecidableEq, Repr

/-- Payload of the C `Value` union.  A `real` carries the 64-bit pattern of
the `double`; a `text` carries its byte buffer, `none` when the `data`
pointer is `NULL`. -/
inductive Payload where
  | int (i : Int)
  | real (bits : Nat)
  | text (data : Option (List Nat))
deriving DecidableEq, Repr

/-- The Engine B `Value` struct: type tag, union payload and `is_null`
flag. -/
structure Value where
  type : ColumnType
  payload : Payload
  is_null : Bool
deriving DecidableEq, Repr

/-- Read of the union field `value.integer`.  Reading a member other than
the stored one reinterprets bytes in C; no modelled code path does so, and
such a read is rendered as `0`. -/
def intField (v : Value) : Int :=
  match v.payload with
  | Payload.int i => i
  | _ => 0

/-- Read of the union field `value.real` (as a 64-bit pattern). -/
def realField (v : Value) : Nat :=
  match v.payload with
  | Payload.real b => b
  | _ => 0

/-- Read of the union fields `value.text.data` / `value.text.length` (the
length is the list length). -/
def textField (v : Value) : Option (List Nat) :=
  match v.payload with
  | Payload.text d => d
  | _ => none

/-- `value_integer`. -/
def value_integer (v : Int) : Value := ⟨ColumnType.integer, Payload.int v, false⟩

/-- `value_real`, holding the bit pattern of the double. -/
def value_real (bits : Nat) : Value := ⟨ColumnType.real, Payload.real bits, false⟩

/-- `value_text`; the argument is `none` for a `NULL` string pointer, and
`is_null` is set accordingly. -/
def value_text (s : Option (List Nat)) : Value :=
  ⟨ColumnType.text, Payload.text s, s.isNone⟩

/-- `value_null`.  The C code zero-initialises the struct, leaving the type
tag `0`, which is not a named `COL_TYPE`; that tag is never consulted for
a null value, and the embedding uses `integer` in its place. -/
def value_null : Value := ⟨ColumnType.integer, Payload.int 0, true⟩

/-- One column step of `table_pack_row`: write a value into the row buffer
at the column's offset.  `none` models the `return false` on a column
type outside INTEGER, REAL, TEXT. -/
def packColumn (col : ColumnDesc) (v : Value) (buf : List Nat) : Option (List Nat) :=
  if v.is_null then some buf
  else
    match col.type with
    | ColumnType.integer =>
        some (writeBytes buf col.offset (le64 (toPattern64 (intField v))))
    | ColumnType.real =>
        some (writeBytes buf col.offset (le64 (realField v)))
    | ColumnType.text =>
        match textField v with
        | none => some buf
        | some data =>
            let copy_len := min data.length (col.length - 1)
            some (writeBytes buf col.offset (data.take copy_len ++ [0]))
    | ColumnType.nullable => none

/-- Loop of `table_pack_row` over the columns.  The C loop reads
`values[i]` for each column index; a missing entry would be an
out-of-bounds read in C and is rendered as a null value here (callers
always pass one value per column). -/
def packFold : List ColumnDesc → List Value → List Nat → Option (List Nat)
  | [], _, buf => some buf
  | c :: cs, vs, buf =>
      match packColumn c (vs.headD value_null) buf with
      | none => none
      | some buf1 => packFold cs vs.tail buf1

/-- `table_pack_row`: zero a `row_size` buffer, then write each value at
its column's offset. -/
def table_pack_row (cols : List ColumnDesc) (row_size : Nat) (values : List Value) :
    Option (List Nat) :=
  packFold cols values (List.replicate row_size 0)

/-- One column step of `table_unpack_row`: read the column's slot out of
the row buffer.  TEXT takes the prefix up to the first zero byte within
`col.length` bytes (`strnlen` then a copy). -/
def unpackColumn (col : ColumnDesc) (buf : List Nat) : Option Value :=
  match col.type with
  | ColumnType.integer =>
      some ⟨ColumnType.integer,
        Payload.int (ofPattern64 (fromLe64 (readBytes buf col.offset 8))), false⟩
  | ColumnType.real =>
      some ⟨ColumnType.real,
        Payload.real (fromLe64 (readBytes buf col.offset 8)), false⟩
  | ColumnType.text =>
      let slot := readBytes buf col.offset col.length
      some ⟨ColumnType.text, Payload.text (some (slot.takeWhile (fun b => b != 0))), false⟩
  | ColumnType.nullable => none

/-- `table_unpack_row`: read every column of a packed row; `none` models
`return false` (unsupported column type; allocations are modelled as
succeeding). -/
def table_unpack_row (cols : List ColumnDesc) (buf : List Nat) : Option (List Value) :=
  match cols with
  | [] => some []
  | c :: cs =>
      match unpackColumn c buf with
      | none => none
      | some v => (table_unpack_row cs buf).map (fun vs => v :: vs)

/-- C `isspace` over the default locale, as used by `sscanf`. -/
def isSpaceC (c : Char) : Bool :=
  c == ' ' || c == '\t' || c == '\n' || c == '\x0b' || c == '\x0c' || c == '\r'

/-- One `%Ns` conversion of `sscanf`: skip spaces, then take at most `max`
non-space characters; returns the token and the remaining input. -/
def scanToken (s : List Char) (max : Nat) : List Char × List Char :=
  let s1 := s.dropWhile isSpaceC
  let tok := (s1.takeWhile (fun c => !isSpaceC c)).take max
  (tok, s1.drop tok.length)

/-- The `sscanf(col_def, " %7s %31s", name, type_str)` call; `none` when
fewer than two tokens are assigned. -/
def scanTwoTokens (s : List Char) : Option (List Char × List Char) :=
  let p1 := scanToken s 7
  if p1.1.isEmpty then none
  else
    let p2 := scanToken p1.2 31
    if p2.1.isEmpty then none else some (p1.1, p2.1)

/-- Value of a leading decimal digit run; `none` when there is no digit. -/
def digitsVal (s : List Char) : Option Nat :=
  let ds := s.takeWhile Char.isDigit
  if ds.isEmpty then none
  else some (ds.foldl (fun acc c => acc * 10 + (c.toNat - 48)) 0)

/-- The `sscanf(type_str, "TEXT(%d)", &length)` call: the literal `TEXT(`
must match, then `%d` skips spaces and reads an optionally signed decimal
integer (the trailing `)` does not affect the return value). -/
def scanTextLen (t : List Char) : Option Int :=
  if t.take 5 = "TEXT(".toList then
    let r := (t.drop 5).dropWhile isSpaceC
    match r with
    | '-' :: r2 => (digitsVal r2).map (fun n => -(n : Int))
    | '+' :: r2 => (digitsVal r2).map (fun n => (n : Int))
    | _ => (digitsVal r).map (fun n => (n : Int))
  else none

/-- Type dispatch of the schema parser on one column definition, by
`strncmp` prefix tests: column type and slot length, or `none` for an
unsupported type.  A parsed TEXT length above 255 is clamped to 255;
otherwise the C `int` is assigned to the `uint8_t` length field, i.e.
reduced modulo 256. -/
def parseColType (type_str : List Char) : Option (ColumnType × Nat) :=
  if type_str.take 7 = "INTEGER".toList then some (ColumnType.integer, 8)
  else if type_str.take 4 = "REAL".toList then some (ColumnType.real, 8)
  else if type_str.take 4 = "TEXT".toList then
    match scanTextLen type_str with
    | some n => some (ColumnType.text, if 255 < n then 255 else ((n % 256).toNat))
    | none => some (ColumnType.text, 64)
  else none

/-- Distance from `cur` to the next `,` (the `strchr(current, ',')` call);
when there is none the loop uses the closing parenthesis `endIdx`. -/
def commaDist (cs : List Char) (cur endIdx : Nat) : Nat :=
  match (cs.drop cur).findIdx? (fun c => c == ',') with
  | some k => k
  | none => endIdx - cur

/-- Loop of `table_parse_schema` over the column definitions, mirroring
`while (current < end && *column_count < MAX_COLUMNS)`, including the
`break` on a failed `sscanf`, the 255-byte cap on one column definition,
and the `break` when the separator found is the closing parenthesis.
Every iteration appends one column and the guard stops at 14 columns, so
the `fuel` counter (15 at the top call) is never exhausted; its base case
returns what the loop guard would return at 14 columns. -/
def parseLoop (cs : List Char) (endIdx : Nat) :
    Nat → Nat → List ColumnDesc → Nat → Option (List ColumnDesc × Nat)
  | 0, _, acc, off => some (acc, off)
  | fuel + 1, cur, acc, off =>
    if cur < endIdx ∧ acc.length < 14 then
      let comma := cur + commaDist cs cur endIdx
      let def_len := min (comma - cur) 255
      let col_def := (cs.drop cur).take def_len
      match scanTwoTokens col_def with
      | none => some (acc, off)
      | some (name, type_str) =>
        match parseColType type_str with
        | none => none
        | some (ty, len) =>
          let acc1 := acc ++ [⟨name, ty, len, off⟩]
          if comma = endIdx then some (acc1, off + len)
          else parseLoop cs endIdx fuel (comma + 1) acc1 (off + len)
    else some (acc, off)

/-- Index of the last occurrence of `c` (the `strrchr` call). -/
def lastIdxOf (cs : List Char) (c : Char) : Option Nat :=
  match cs.reverse.findIdx? (fun x => x == c) with
  | some k => some (cs.length - 1 - k)
  | none => none

/-- `table_parse_schema`: locate the parenthesised column list and parse up
to 14 `name TYPE` items; the parse succeeds iff no unsupported type is
met and at least one column is produced.  Returns the columns and the
computed row size. -/
def table_parse_schema (schema : String) : Option (List ColumnDesc × Nat) :=
  let cs := schema.toList
  match cs.findIdx? (fun c => c == '(') with
  | none => none
  | some openIdx =>
    match lastIdxOf cs ')' with
    | none => none
    | some endIdx =>
      match parseLoop cs endIdx 15 (openIdx + 1) [] 0 with
      | none => none
      | some (cols, row_size) =>
        if 0 < cols.length then some (cols, row_size) else none

/-- Engine B table handle together with the mapped file it owns.  The
packed row tail is a list of row buffers (row `i` lives at file offset
`256 + i * row_size`, which `write_offset` tracks); bytes of the mapped
region never written remain zero, as left by `ftruncate`.
`mapped_ptr_valid` models the `mapped_ptr != NULL` test of
`table_flush`. -/
structure Table where
  name : String
  columns : List ColumnDesc
  row_size : Nat
  num_rows : Nat
  write_offset : Nat
  mapped_size : Nat
  tail : List (List Nat)
  rows_since_sync : Nat
  mapped_ptr_valid : Bool
deriving DecidableEq, Repr

/-- `table_create` (`INITIAL_FILE_SIZE` is 1 MiB; directory creation,
`open`, `ftruncate` and `mmap` are modelled as succeeding). Returns
`none` exactly when the schema fails to parse. -/
def table_create (name schema : String) : Option Table :=
  match table_parse_schema schema with
  | none => none
  | some (cols, row_size) =>
      some ⟨name, cols, row_size, 0, 256, 1048576, [], 0, true⟩

/-- `table_open`: map an existing file, given by its header fields and its
size; validate magic and version and recompute the write offset. -/
def table_open (name : String) (magicOk : Bool) (version : Nat)
    (cols : List ColumnDesc) (row_size num_rows : Nat)
    (tail : List (List Nat)) (file_size : Nat) : Option Table :=
  if file_size < 256 then none
  else if !magicOk || version ≠ 1 then none
  else some ⟨name, cols, row_size, num_rows, 256 + num_rows * row_size,
    file_size, tail, 0, true⟩

/-- `table_remap`: double the file and remap (`GROWTH_FACTOR` is 2;
`ftruncate` and `mmap` are modelled as succeeding, so the flag is always
true). -/
def table_remap (t : Table) : Bool × Table :=
  (true, { t with mapped_size := t.mapped_size * 2 })

/-- `table_ensure_space`.  The source doubles at most once and does not
re-check that the doubled size suffices. -/
def table_ensure_space (t : Table) (needed : Nat) : Bool × Table :=
  if t.write_offset + needed ≤ t.mapped_size then (true, t) else table_remap t

/-- `table_flush` (`msync` over the written region is modelled as
succeeding; the last-sync timestamp is outside the model). -/
def table_flush (t : Option Table) : Bool × Option Table :=
  match t with
  | none => (false, none)
  | some t =>
    if !t.mapped_ptr_valid then (false, some t)
    else (true, some { t with rows_since_sync := 0 })

/-- `table_append_row`: ensure space, pack the row at the write offset,
then advance `write_offset` and the counters; the row-count sync hint may
then fire (`SYNC_INTERVAL_ROWS` is 512; the 100 ms clause is wall-clock
time, outside the model). -/
def table_append_row (t : Option Table) (values : Option (List Value)) :
    Bool × Option Table :=
  match t, values with
  | none, _ => (false, none)
  | some t, none => (false, some t)
  | some t, some vs =>
    match table_ensure_space t t.row_size with
    | (false, t1) => (false, some t1)
    | (true, t1) =>
      match table_pack_row t1.columns t1.row_size vs with
      | none => (false, some t1)
      | some row =>
        let t2 : Table := { t1 with
          tail := t1.tail ++ [row]
          write_offset := t1.write_offset + t1.row_size
          num_rows := t1.num_rows + 1
          rows_since_sync := t1.rows_since_sync + 1 }
        if 512 ≤ t2.rows_since_sync then (true, (table_flush (some t2)).2)
        else (true, some t2)

/-- Row scan of `table_select`: row `i` is read at file offset
`256 + i * row_size`; a row the tail never reached reads as zero bytes
(the region `ftruncate` zero-fills); a row that fails to unpack is
skipped without invoking the callback. -/
def selectRows (cols : List ColumnDesc) (row_size : Nat) (tail : List (List Nat))
    (n : Nat) : List (List Value) :=
  (List.range n).filterMap
    (fun i => table_unpack_row cols (tail.getD i (List.replicate row_size 0)))

/-- `table_select`: the callback pointer is `Option Unit` (its `NULL` test
is what matters); the rows it is invoked with are collected in order.
The `where_clause` argument is accepted and ignored by the source. -/
def table_select (t : Option Table) (where_clause : Option String)
    (callback : Option Unit) : Bool × List (List Value) :=
  match t, callback with
  | none, _ => (false, [])
  | some _, none => (false, [])
  | some t, some _ => (true, selectRows t.columns t.row_size t.tail t.num_rows)

/-- `table_get_row_count`. -/
def table_get_row_count (t : Option Table) : Nat :=
  match t with
  | none => 0
  | some t => t.num_rows

end TableV2

/-- Two's-complement bit pattern of a C `(uint32_t)` cast of an `int64_t`. -/
def toPattern32 (i : Int) : Nat := (i % (2 ^ 32 : Int)).toNat

/-- C `strcmp` over byte buffers: the end of a list reads as the
terminating zero byte; only the sign of the result is ever used. -/
def strcmpBytes : List Nat → List Nat → Int
  | [], [] => 0
  | [], y :: _ => 0 - (y : Int)
  | x :: _, [] => (x : Int)
  | x :: xs, y :: ys =>
    if x = y then (if x = 0 then 0 else strcmpBytes xs ys)
    else (x : Int) - (y : Int)

/-- Result codes of `db.h` (`RistrettoResult`). -/
inductive RistrettoResult where
  | ok
  | error
  | nomem
  | ioError
  | parseError
  | notFound
  | constraintError
deriving DecidableEq, Repr

/-- Integer values of the `RistrettoResult` enum constants. -/
def resultCode : RistrettoResult → Int
  | RistrettoResult.ok => 0
  | RistrettoResult.error => -1
  | RistrettoResult.nomem => -2
  | RistrettoResult.ioError => -3
  | RistrettoResult.parseError => -4
  | RistrettoResult.notFound => -5
  | RistrettoResult.constraintError => -6

namespace Storage

/-- Engine A data type tags (`TYPE_NULL`, `TYPE_INTEGER`, `TYPE_REAL`,
`TYPE_TEXT` of `storage.h`). -/
inductive DataType where
  | null
  | integer
  | real
  | text
deriving DecidableEq, Repr

/-- Engine A `Value`: a tagged union.  `vReal` carries the 64-bit pattern
of the `double`; `vText` carries the bytes behind the `data` pointer
(`none` when that pointer is `NULL`) and the separate `len` field. -/
inductive Value where
  | vNull
  | vInt (i : Int)
  | vReal (bits : Nat)
  | vText (data : Option (List Nat)) (len : Nat)
deriving DecidableEq, Repr

/-- The `type` tag of a value. -/
def Value.typeTag : Value → DataType
  | Value.vNull => DataType.null
  | Value.vInt _ => DataType.integer
  | Value.vReal _ => DataType.real
  | Value.vText _ _ => DataType.text

/-- Read of the union field `value.integer`; reading a member other than
the stored one reinterprets bytes in C, which is rendered as `0` (never
exercised by a claim). -/
def intOf : Value → Int
  | Value.vInt i => i
  | _ => 0

/-- In-memory column descriptor of Engine A (`Column`). -/
structure Column where
  name : String
  type : DataType
  offset : Nat
  size : Nat
deriving DecidableEq, Repr

/-- Row locator (`RowId`): data page number and byte offset within the
page; page 0 is the "no such row" sentinel. -/
structure RowId where
  page_id : Nat
  offset : Nat
deriving DecidableEq, Repr

end Storage

namespace Btree

/-- Leaf node of the B-tree (`btree.c`): parallel arrays of keys and row
locators; `num_keys` is the list length.  The node-header flags are set
once by `btree_create` and never change, and no code path ever creates an
internal node, so the tree is exactly its root leaf. -/
structure Leaf where
  keys : List Nat
  vals : List Storage.RowId
deriving DecidableEq, Repr

/-- Binary-search loop of `find_child_index` over explicit bounds
`left`/`right`.  The interval shrinks every iteration, so `fuel` (one
more than the interval size at the top call) is never exhausted; the base
case returns `left` exactly as the loop exit does. -/
def fciAux (keys : List Nat) (key : Nat) : Nat → Nat → Nat → Nat
  | 0, left, _ => left
  | fuel + 1, left, right =>
    if left < right then
      let mid := (left + right) / 2
      if key ≤ keys.getD mid 0 then fciAux keys key fuel left mid
      else fciAux keys key fuel (mid + 1) right
    else left

/-- `find_child_index`: position of the first key that is not below `key`
in the node's sorted key array. -/
def find_child_index (keys : List Nat) (key : Nat) : Nat :=
  fciAux keys key (keys.length + 1) 0 keys.length

/-- `leaf_node_insert`: a full node (`BTREE_ORDER - 1 = 254` keys) or a
duplicate key is rejected; otherwise keys and values above the
binary-search position shift up and the pair lands there. -/
def leaf_node_insert (node : Leaf) (key : Nat) (value : Storage.RowId) : Bool × Leaf :=
  if 254 ≤ node.keys.length then (false, node)
  else
    let index := find_child_index node.keys key
    if index < node.keys.length ∧ node.keys.getD index 0 = key then (false, node)
    else (true, ⟨node.keys.insertIdx index key, node.vals.insertIdx index value⟩)

/-- `btree_insert`: the root node is always a leaf (see `Leaf`), so this is
`leaf_node_insert` on the root. -/
def btree_insert (node : Leaf) (key : Nat) (value : Storage.RowId) : Bool × Leaf :=
  leaf_node_insert node key value

/-- `leaf_node_find`. -/
def leaf_node_find (node : Leaf) (key : Nat) : Option Storage.RowId :=
  let index := find_child_index node.keys key
  if index < node.keys.length ∧ node.keys.getD index 0 = key then
    some (node.vals.getD index ⟨0, 0⟩)
  else none

/-- `btree_find` on the root leaf. -/
def btree_find (node : Leaf) (key : Nat) : Option Storage.RowId :=
  leaf_node_find node key

/-- Cursor state (`BTreeCursor`): cell index and end flag; the page number
is constant since the tree is one node. -/
structure Cursor where
  cell_num : Nat
  end_of_table : Bool
deriving DecidableEq, Repr

/-- `btree_cursor_first`. -/
def btree_cursor_first (node : Leaf) : Cursor :=
  ⟨0, node.keys.length == 0⟩

/-- `btree_cursor_advance`. -/
def btree_cursor_advance (node : Leaf) (c : Cursor) : Cursor :=
  if c.end_of_table then c
  else ⟨c.cell_num + 1, decide (node.keys.length ≤ c.cell_num + 1)⟩

/-- `btree_cursor_at_end`. -/
def btree_cursor_at_end (c : Cursor) : Bool := c.end_of_table

/-- `btree_cursor_key`. -/
def btree_cursor_key (node : Leaf) (c : Cursor) : Nat :=
  node.keys.getD c.cell_num 0

/-- `btree_cursor_value`. -/
def btree_cursor_value (node : Leaf) (c : Cursor) : Storage.RowId :=
  node.vals.getD c.cell_num ⟨0, 0⟩

/-- Enumeration through the cursor: `first`, then emit `key`/`value` and
`advance` until `at_end`.  `fuel` bounds the loop; `num_keys + 1` steps
always suffice. -/
def enumAux (node : Leaf) : Nat → Cursor → List (Nat × Storage.RowId)
  | 0, _ => []
  | fuel + 1, c =>
    if btree_cursor_at_end c then []
    else (btree_cursor_key node c, btree_cursor_value node c) ::
      enumAux node fuel (btree_cursor_advance node c)

/-- Full cursor enumeration of the index. -/
def cursorEnum (node : Leaf) : List (Nat × Storage.RowId) :=
  enumAux node (node.keys.length + 1) (btree_cursor_first node)

end Btree

namespace Storage

/-- Engine A table (`Table` of `storage.h` plus the `primary_index` member
`storage.c` manages).  `rows` holds the row slots of the root data page
(the only page the source ever writes), so the page header's `row_count`
is `rows.length`; `root_page = 0` means the page is not yet allocated. -/
structure Table where
  name : String
  columns : List Column
  row_size : Nat
  root_page : Nat
  row_count : Nat
  next_row_id : Nat
  primary_index : Option Btree.Leaf
  rows : List (List Nat)
deriving DecidableEq, Repr

/-- `get_type_size` (`MAX_TEXT_SIZE + 1 = 256` bytes for TEXT). -/
def get_type_size : DataType → Nat
  | DataType.null => 0
  | DataType.integer => 8
  | DataType.real => 8
  | DataType.text => 256

/-- `align_offset`: round up to a multiple of `ALIGN_SIZE = 8`. -/
def align_offset (off : Nat) : Nat := (off + 7) / 8 * 8

/-- `storage_table_create` (allocation modelled as succeeding). -/
def storage_table_create (name : String) : Table :=
  ⟨name, [], 0, 0, 0, 1, none, []⟩

/-- `storage_table_add_column` (`realloc` modelled as succeeding). -/
def storage_table_add_column (t : Table) (name : String) (ty : DataType) : Table :=
  let off := align_offset t.row_size
  let size := get_type_size ty
  { t with columns := t.columns ++ [⟨name, ty, off, size⟩], row_size := off + size }

/-- `storage_row_create`: a zeroed buffer of `row_size` bytes (`calloc`). -/
def storage_row_create (t : Table) : List Nat :=
  List.replicate t.row_size 0

/-- `storage_row_set_value`: write one value into its column slot; a type
tag that does not match the column writes nothing.  For TEXT the `len`
field drives the copy (callers keep it equal to the buffer length), the
copy is capped at 255 bytes and a terminator follows it. -/
def storage_row_set_value (row : List Nat) (t : Table) (col_index : Nat) (v : Value) :
    List Nat :=
  if h : col_index < t.columns.length then
    let col := t.columns.get ⟨col_index, h⟩
    match col.type, v with
    | DataType.integer, Value.vInt i =>
        writeBytes row col.offset (le64 (toPattern64 i))
    | DataType.real, Value.vReal bits =>
        writeBytes row col.offset (le64 bits)
    | DataType.text, Value.vText (some data) len =>
        let copy_len := min len 255
        writeBytes row col.offset (data.take copy_len ++ [0])
    | _, _ => row
  else row

/-- `storage_row_get_value`: read one column slot back as a value; fails on
an out-of-range column index or a slot past the row buffer.  For TEXT the
length is that of the zero-free prefix within `size - 1` bytes. -/
def storage_row_get_value (row : List Nat) (t : Table) (col_index : Nat) : Option Value :=
  if h : col_index < t.columns.length then
    let col := t.columns.get ⟨col_index, h⟩
    if col.offset + col.size ≤ row.length then
      match col.type with
      | DataType.null => some Value.vNull
      | DataType.integer =>
          some (Value.vInt (if 8 ≤ col.size then
            ofPattern64 (fromLe64 (readBytes row col.offset 8)) else 0))
      | DataType.real =>
          some (Value.vReal (if 8 ≤ col.size then
            fromLe64 (readBytes row col.offset 8) else 0))
      | DataType.text =>
          let max_len := col.size - 1
          let actual := ((readBytes row col.offset max_len).takeWhile (fun b => b != 0)).length
          some (Value.vText (some (readBytes row col.offset actual)) actual)
    else none
  else none

/-- `table_insert_row`: append to the root page, allocating it on first
use (`pager_allocate_page` returns a positive page number, the pager
holding at least one page already; the embedding uses page 1).  When the
4096-byte page cannot hold one more row the sentinel locator `(0, 0)`
comes back and nothing changes. -/
def table_insert_row (t : Table) (row : List Nat) : RowId × Table :=
  let t1 := if t.root_page = 0 then { t with root_page := 1 } else t
  if 4096 < t1.rows.length * t1.row_size + 8 + t1.row_size then (⟨0, 0⟩, t1)
  else
    (⟨t1.root_page, t1.rows.length * t1.row_size + 8⟩,
     { t1 with rows := t1.rows ++ [row], row_count := t1.row_count + 1 })

/-- `table_get_row`: copy `row_size` bytes at the locator.
`pager_get_page` returns `NULL` only for a page number at or above
`TABLE_MAX_PAGES = 1000`; a page other than the root reads as the zero
bytes `ftruncate` put there. -/
def table_get_row (t : Table) (row_id : RowId) : Option (List Nat) :=
  if 1000 ≤ row_id.page_id then none
  else if row_id.page_id = t.root_page ∧ t.root_page ≠ 0 then
    some (t.rows.getD ((row_id.offset - 8) / t.row_size) (List.replicate t.row_size 0))
  else some (List.replicate t.row_size 0)

/-- Scanner state (`TableScanner`). -/
structure TableScanner where
  current_page : Nat
  current_offset : Nat
  rows_scanned : Nat
  at_end : Bool
deriving DecidableEq, Repr

/-- `table_scanner_create`: start at the root page just past the 8-byte
page header; an empty table starts at the end. -/
def table_scanner_create (t : Table) : TableScanner :=
  ⟨t.root_page, 8, 0, t.row_count == 0⟩

/-- Row slots the scanner's current page holds: the root page's count, or
0 on any other (zero-filled) page. -/
def scannerPageRows (t : Table) (s : TableScanner) : Nat :=
  if s.current_page = t.root_page ∧ s.current_page ≠ 0 then t.rows.length else 0

/-- `table_scanner_next`: stop once `rows_scanned` reaches the table count
or the page's own count runs out (the source never follows a next page);
otherwise copy the row at the current offset and advance. -/
def table_scanner_next (t : Table) (s : TableScanner) :
    Option (List Nat) × TableScanner :=
  if s.at_end || t.row_count ≤ s.rows_scanned then (none, { s with at_end := true })
  else if 1000 ≤ s.current_page then (none, { s with at_end := true })
  else
    let row_index := (s.current_offset - 8) / t.row_size
    if scannerPageRows t s ≤ row_index then (none, { s with at_end := true })
    else
      (some (t.rows.getD row_index (List.replicate t.row_size 0)),
       { s with current_offset := s.current_offset + t.row_size,
                rows_scanned := s.rows_scanned + 1 })

/-- `table_scanner_at_end`. -/
def table_scanner_at_end (s : TableScanner) : Bool := s.at_end

end Storage

namespace Simd

/-- Scalar semantics of `simd_filter_eq_i64`: one byte per element, 1 on
match.  The vectorised variants compute the same bytes. -/
def simd_filter_eq_i64 (column : List Int) (value : Int) : List Nat :=
  column.map (fun x => if x = value then 1 else 0)

/-- Scalar semantics of `simd_filter_gt_i64`. -/
def simd_filter_gt_i64 (column : List Int) (value : Int) : List Nat :=
  column.map (fun x => if value < x then 1 else 0)

/-- Scalar semantics of `simd_filter_lt_i64`. -/
def simd_filter_lt_i64 (column : List Int) (value : Int) : List Nat :=
  column.map (fun x => if x < value then 1 else 0)

end Simd

namespace Query

/-- Binary operators of `parser.h` (`OP_EQ` .. `OP_OR`). -/
inductive BinaryOp where
  | opEq
  | opNe
  | opLt
  | opLe
  | opGt
  | opGe
  | opAnd
  | opOr
deriving DecidableEq, Repr

/-- Expression AST (`Expr`): literal, unqualified column reference, or
binary operation. -/
inductive Expr where
  | lit (v : Storage.Value)
  | col (table : Option String) (column : String)
  | bin (op : BinaryOp) (left right : Expr)
deriving DecidableEq, Repr

/-- `CreateTableStmt`: table name plus `(name, type)` column list. -/
structure CreateTableStmt where
  table_name : String
  columns : List (String × Storage.DataType)
deriving DecidableEq, Repr

/-- Statement AST (`Statement`).  A `select` column list of `none` is the
`SELECT *` marker (the source stores `UINT32_MAX` as the count). -/
inductive Statement where
  | create (stmt : CreateTableStmt)
  | insert (table_name : String) (values : List Storage.Value)
  | select (table_name : String) (columns : Option (List String))
      (whereClause : Option Expr)
  | showTables (pattern : Option String)
  | describe (table_name : String)
  | showCreateTable (table_name : String)
deriving DecidableEq, Repr

/-- The process-wide catalog of `query.c`, as explicit state: registered
`(name, table)` pairs in registration order. -/
abbrev Catalog := List (String × Storage.Table)

/-- `find_table`: first entry whose stored name compares equal. -/
def find_table (catalog : Catalog) (name : String) : Option Storage.Table :=
  (catalog.find? (fun e => e.1 == name)).map Prod.snd

/-- `register_table` (the `realloc` is modelled as succeeding); the stored
name is the table name truncated to 63 characters.  Catalog mutations
through a table pointer are modelled by `catalogUpdate`. -/
def register_table (catalog : Catalog) (t : Storage.Table) : Catalog :=
  catalog ++ [((t.name.toList.take 63).asString, t)]

/-- Table mutation seen through the catalog: C entries hold a pointer to
the table, so an update becomes visible at the entry registered under the
same name. -/
def catalogUpdate (catalog : Catalog) (t : Storage.Table) : Catalog :=
  catalog.map (fun e =>
    if e.1 == (t.name.toList.take 63).asString then (e.1, t) else e)

/-- `can_use_primary_index`: an equality between the first column (which
must be INTEGER) and an INTEGER literal, in either operand order. -/
def can_use_primary_index (filter : Option Expr) (t : Storage.Table) : Bool :=
  match filter, t.columns with
  | some f, c0 :: _ =>
    (c0.type == Storage.DataType.integer) &&
    (match f with
     | Expr.bin BinaryOp.opEq (Expr.col _ cn) (Expr.lit v) =>
         cn == c0.name && (v.typeTag == Storage.DataType.integer)
     | Expr.bin BinaryOp.opEq (Expr.lit v) (Expr.col _ cn) =>
         cn == c0.name && (v.typeTag == Storage.DataType.integer)
     | _ => false)
  | _, _ => false

/-- Query plan (`QueryPlan`).  `columns = none` projects all columns; the
executor in the source ignores the projection either way. -/
inductive QueryPlan where
  | createTable (stmt : CreateTableStmt)
  | insert (table : Storage.Table) (values : List Storage.Value)
  | tableScan (table : Storage.Table) (filter : Option Expr)
      (columns : Option (List Nat))
  | indexScan (table : Storage.Table) (filter : Option Expr)
      (columns : Option (List Nat))
  | showTables (pattern : Option String)
  | describe (table : Storage.Table)
  | showCreateTable (table : Storage.Table)
deriving DecidableEq, Repr

/-- Column-list resolution of `plan_statement` for a named SELECT list:
each name maps to the index of the first column carrying it, and an
unknown name fails the plan. -/
def resolveColumns (t : Storage.Table) (names : List String) : Option (List Nat) :=
  names.mapM (fun n => t.columns.findIdx? (fun c => c.name == n))

/-- `plan_statement`: bind the statement to a catalog table and pick the
plan variant; `none` models the `NULL` plan (unknown table or column, or
out-of-memory, the latter not modelled). -/
def plan_statement (stmt : Statement) (catalog : Catalog) : Option QueryPlan :=
  match stmt with
  | Statement.create c => some (QueryPlan.createTable c)
  | Statement.insert name values =>
    match find_table catalog name with
    | none => none
    | some t => some (QueryPlan.insert t values)
  | Statement.select name cols whereClause =>
    match find_table catalog name with
    | none => none
    | some t =>
      let can_use_index := t.primary_index.isSome && whereClause.isSome &&
        can_use_primary_index whereClause t
      let planCols : Option (Option (List Nat)) :=
        match cols with
        | none => some none
        | some names =>
          if names.length = 0 then some none
          else (resolveColumns t names).map some
      match planCols with
      | none => none
      | some pc =>
        some (if can_use_index then QueryPlan.indexScan t whereClause pc
              else QueryPlan.tableScan t whereClause pc)
  | Statement.showTables p => some (QueryPlan.showTables p)
  | Statement.describe name =>
    (find_table catalog name).map (fun t => QueryPlan.describe t)
  | Statement.showCreateTable name =>
    (find_table catalog name).map (fun t => QueryPlan.showCreateTable t)

/-- Rendered cell handed to the row sink.  The `%lld` rendering of an
INTEGER is decimal text; the `%.6g` rendering of a REAL is kept symbolic
as the double's bit pattern (no claim inspects the digits). -/
inductive CString where
  | str (bytes : List Nat)
  | realStr (bits : Nat)
deriving DecidableEq, Repr

/-- ASCII bytes of a Lean string (used for fixed texts the executor
emits). -/
def asciiOf (s : String) : List Nat := s.toList.map Char.toNat

/-- One row handed to the row sink: the rendered cells, in column order
(the names array passed alongside holds the table's column names). -/
abbrev EmittedRow := List CString

/-- `value_to_string` (allocations modelled as succeeding): a missing or
NULL value renders as the text `NULL`; TEXT renders its bytes up to
`strlen`, capped by `len` and by 10000. -/
def value_to_string (v : Option Storage.Value) : CString :=
  match v with
  | none => CString.str (asciiOf "NULL")
  | some Storage.Value.vNull => CString.str (asciiOf "NULL")
  | some (Storage.Value.vInt i) => CString.str (asciiOf (toString i))
  | some (Storage.Value.vReal bits) => CString.realStr bits
  | some (Storage.Value.vText none _) => CString.str (asciiOf "NULL")
  | some (Storage.Value.vText (some data) len) =>
    if 10000 < len then CString.str (asciiOf "[TEXT_TOO_LONG]")
    else
      let actual_len := (data.takeWhile (fun b => b != 0)).length
      CString.str (data.take (min (min actual_len len) 10000))

/-- `execute_create_table`: a duplicate name is a constraint error;
otherwise build the table, add the columns, create the primary index when
some column is INTEGER (the source's loop creates it at the first such
column and breaks), and register. -/
def execute_create_table (catalog : Catalog) (stmt : CreateTableStmt) :
    RistrettoResult × Catalog :=
  match find_table catalog stmt.table_name with
  | some _ => (RistrettoResult.constraintError, catalog)
  | none =>
    let t0 := Storage.storage_table_create stmt.table_name
    let t1 := stmt.columns.foldl
      (fun t nc => Storage.storage_table_add_column t nc.1 nc.2) t0
    let t2 := if t1.columns.any (fun c => c.type == Storage.DataType.integer)
      then { t1 with primary_index := some ⟨[], []⟩ } else t1
    (RistrettoResult.ok, register_table catalog t2)

/-- Type check and coercion loop of `execute_insert`: NULL passes any
column; an INTEGER supplied to a REAL column converts (`i2d` is the bit
pattern of the C double cast); any other mismatch is a constraint
error. -/
def coerceValues (i2d : Int → Nat) :
    List Storage.Column → List Storage.Value → Option (List Storage.Value)
  | [], [] => some []
  | c :: cs, v :: rest =>
    let step : Option Storage.Value :=
      if v.typeTag == Storage.DataType.null then some v
      else if v.typeTag == c.type then some v
      else if c.type == Storage.DataType.real &&
          v.typeTag == Storage.DataType.integer then
        some (Storage.Value.vReal (i2d (Storage.intOf v)))
      else none
    match step, coerceValues i2d cs rest with
    | some v1, some vs1 => some (v1 :: vs1)
    | _, _ => none
  | _, _ => none

/-- Row buffer built by the `storage_row_set_value` loop of
`execute_insert`. -/
def setAllValues (t : Storage.Table) (vals : List Storage.Value) : List Nat :=
  (List.range vals.length).foldl
    (fun r i => Storage.storage_row_set_value r t i (vals.getD i Storage.Value.vNull))
    (Storage.storage_row_create t)

/-- `execute_insert`: validate counts and types, build and store the row,
then insert `(uint32_t)values[0].integer` into the primary index when the
table has one and its first column is INTEGER — a failed index insert
(duplicate key or full leaf) is deliberately ignored, and the result is
still OK. -/
def execute_insert (i2d : Int → Nat) (t : Storage.Table)
    (values : List Storage.Value) : RistrettoResult × Storage.Table :=
  if values.length ≠ t.columns.length then (RistrettoResult.constraintError, t)
  else
    match coerceValues i2d t.columns values with
    | none => (RistrettoResult.constraintError, t)
    | some vals =>
      let row := setAllValues t vals
      let p := Storage.table_insert_row t row
      if p.1.page_id = 0 then (RistrettoResult.error, p.2)
      else
        let t1 := p.2
        let t2 := match t1.primary_index, t1.columns, vals with
          | some leaf, c0 :: _, v0 :: _ =>
            if c0.type == Storage.DataType.integer then
              let leaf1 := (Btree.btree_insert leaf (toPattern32 (Storage.intOf v0)) p.1).2
              { t1 with primary_index := some leaf1 }
            else t1
          | _, _, _ => t1
        (RistrettoResult.ok, t2)

/-- `can_use_simd_filter`: a comparison (`=`, `>`, `<`) between a named
INTEGER column and an INTEGER literal, in either operand order. -/
def can_use_simd_filter (filter : Option Expr) (t : Storage.Table) : Bool :=
  match filter with
  | some (Expr.bin op (Expr.col _ cn) (Expr.lit v)) =>
      t.columns.any (fun c => c.name == cn && c.type == Storage.DataType.integer) &&
      (v.typeTag == Storage.DataType.integer) &&
      (op == BinaryOp.opEq || op == BinaryOp.opGt || op == BinaryOp.opLt)
  | some (Expr.bin op (Expr.lit v) (Expr.col _ cn)) =>
      t.columns.any (fun c => c.name == cn && c.type == Storage.DataType.integer) &&
      (v.typeTag == Storage.DataType.integer) &&
      (op == BinaryOp.opEq || op == BinaryOp.opGt || op == BinaryOp.opLt)
  | _ => false

/-- Cell strings of one row as `execute_select` materialises them: every
column through `storage_row_get_value` and `value_to_string` (a missing
value renders as the text `NULL`). -/
def rowEmission (t : Storage.Table) (row : List Nat) : EmittedRow :=
  (List.range t.columns.length).map
    (fun i => value_to_string (Storage.storage_row_get_value row t i))

/-- Scanner loop of `execute_select` (its non-SIMD branch): every row the
scanner yields is materialised and handed to the row sink — the plan's
WHERE filter is not consulted anywhere in this loop.  `fuel` bounds the
loop; `row_count + 1` steps always suffice since every yield advances
`rows_scanned`. -/
def selectScanLoop (t : Storage.Table) : Nat → Storage.TableScanner → List EmittedRow
  | 0, _ => []
  | fuel + 1, s =>
    if Storage.table_scanner_at_end s then []
    else
      match Storage.table_scanner_next t s with
      | (none, _) => []
      | (some row, s1) => rowEmission t row :: selectScanLoop t fuel s1

/-- First scan of `execute_select_simd`: extract the filter column into a
contiguous `int64_t` array; a non-INTEGER or missing value contributes
0. -/
def extractLoop (t : Storage.Table) (col_index : Nat) :
    Nat → Storage.TableScanner → Nat → List Int
  | 0, _, _ => []
  | fuel + 1, s, row_index =>
    if Storage.table_scanner_at_end s || t.row_count ≤ row_index then []
    else
      match Storage.table_scanner_next t s with
      | (none, _) => []
      | (some row, s1) =>
        (match Storage.storage_row_get_value row t col_index with
         | some (Storage.Value.vInt i) => i
         | _ => 0) :: extractLoop t col_index fuel s1 (row_index + 1)

/-- Second scan of `execute_select_simd`: deliver exactly the rows whose
bitmap byte is non-zero. -/
def simdEmitLoop (t : Storage.Table) (bitmap : List Nat) (actual_rows : Nat) :
    Nat → Storage.TableScanner → Nat → List EmittedRow
  | 0, _, _ => []
  | fuel + 1, s, row_index =>
    if Storage.table_scanner_at_end s || actual_rows ≤ row_index then []
    else
      match Storage.table_scanner_next t s with
      | (none, _) => []
      | (some row, s1) =>
        if bitmap.getD row_index 0 ≠ 0 then
          rowEmission t row :: simdEmitLoop t bitmap actual_rows fuel s1 (row_index + 1)
        else simdEmitLoop t bitmap actual_rows fuel s1 (row_index + 1)

/-- `execute_select_simd`: resolve the filter column and literal (flipping
`>`/`<` when the literal is on the left), extract the column, build the
match bitmap with the SIMD kernel for `=`, `>` or `<`, then deliver the
matching rows.  The fallback for another operator re-enters
`execute_select`, whose SIMD test then fails, i.e. it runs the generic
scan loop; the callback is known present on every path reaching this
function. -/
def execute_select_simd (t : Storage.Table) (filter : Option Expr) :
    RistrettoResult × List EmittedRow :=
  match filter with
  | some (Expr.bin op0 l r) =>
    let info : Option (Nat × Int × BinaryOp) :=
      match l, r with
      | Expr.col _ cn, Expr.lit v =>
        (t.columns.findIdx? (fun c => c.name == cn)).map
          (fun i => (i, Storage.intOf v, op0))
      | Expr.lit v, Expr.col _ cn =>
        (t.columns.findIdx? (fun c => c.name == cn)).map
          (fun i => (i, Storage.intOf v,
            match op0 with
            | BinaryOp.opGt => BinaryOp.opLt
            | BinaryOp.opLt => BinaryOp.opGt
            | o => o))
      | _, _ => none
    match info with
    | none => (RistrettoResult.error, [])
    | some (col_index, compare_value, op) =>
      let column_data :=
        extractLoop t col_index (t.row_count + 1) (Storage.table_scanner_create t) 0
      let actual_rows := column_data.length
      let bitmap : Option (List Nat) :=
        match op with
        | BinaryOp.opEq => some (Simd.simd_filter_eq_i64 column_data compare_value)
        | BinaryOp.opGt => some (Simd.simd_filter_gt_i64 column_data compare_value)
        | BinaryOp.opLt => some (Simd.simd_filter_lt_i64 column_data compare_value)
        | _ => none
      match bitmap with
      | some bm =>
        (RistrettoResult.ok,
         simdEmitLoop t bm actual_rows (t.row_count + 1)
           (Storage.table_scanner_create t) 0)
      | none =>
        if t.columns.length = 0 then (RistrettoResult.error, [])
        else (RistrettoResult.ok,
          selectScanLoop t (t.row_count + 1) (Storage.table_scanner_create t))
  | _ => (RistrettoResult.error, [])

/-- `execute_select`: reject a column-less table; without a callback there
is nothing to deliver; with a SIMD-supported filter and more than 100
rows switch to the column-vector path; otherwise run the generic scan
loop (which delivers every scanned row). -/
def execute_select (t : Storage.Table) (filter : Option Expr)
    (callbackPresent : Bool) : RistrettoResult × List EmittedRow :=
  if t.columns.length = 0 then (RistrettoResult.error, [])
  else if !callbackPresent then (RistrettoResult.ok, [])
  else if can_use_simd_filter filter t && 100 < t.row_count then
    execute_select_simd t filter
  else
    (RistrettoResult.ok, selectScanLoop t (t.row_count + 1)
      (Storage.table_scanner_create t))

/-- `execute_index_scan`: extract the key from the equality filter, look it
up; a miss delivers nothing and is OK; a hit fetches and delivers the one
row. -/
def execute_index_scan (t : Storage.Table) (filter : Option Expr)
    (callbackPresent : Bool) : RistrettoResult × List EmittedRow :=
  match t.primary_index with
  | none => (RistrettoResult.error, [])
  | some leaf =>
    if t.columns.length = 0 then (RistrettoResult.error, [])
    else if !callbackPresent then (RistrettoResult.ok, [])
    else
      let keyInfo : Option Nat :=
        match filter with
        | some (Expr.bin BinaryOp.opEq (Expr.col _ _) (Expr.lit v)) =>
          if v.typeTag == Storage.DataType.integer then
            some (toPattern32 (Storage.intOf v)) else none
        | some (Expr.bin BinaryOp.opEq (Expr.lit v) (Expr.col _ _)) =>
          if v.typeTag == Storage.DataType.integer then
            some (toPattern32 (Storage.intOf v)) else none
        | _ => none
      match keyInfo with
      | none => (RistrettoResult.error, [])
      | some key =>
        match Btree.btree_find leaf key with
        | none => (RistrettoResult.ok, [])
        | some row_id =>
          match Storage.table_get_row t row_id with
          | none => (RistrettoResult.ok, [])
          | some row => (RistrettoResult.ok, [rowEmission t row])

/-- Reduced `LIKE` semantics of `execute_show_tables`: `%` matches all, a
pattern containing `%` matches by the prefix before the first `%`, any
other pattern compares exactly. -/
def matchesPattern (pattern : Option String) (name : String) : Bool :=
  match pattern with
  | none => true
  | some p =>
    if p == "%" then true
    else
      match p.toList.findIdx? (fun c => c == '%') with
      | some k => name.toList.take k == p.toList.take k
      | none => name == p

/-- `execute_show_tables`: one single-cell row per registered table name
passing the pattern. -/
def execute_show_tables (catalog : Catalog) (pattern : Option String)
    (callbackPresent : Bool) : RistrettoResult × List EmittedRow :=
  if !callbackPresent then (RistrettoResult.ok, [])
  else
    (RistrettoResult.ok, catalog.filterMap (fun e =>
      if matchesPattern pattern e.1 then some [CString.str (asciiOf e.1)] else none))

/-- Type names `execute_describe` and `execute_show_create_table` print. -/
def typeName : Storage.DataType → String
  | Storage.DataType.integer => "INTEGER"
  | Storage.DataType.real => "REAL"
  | Storage.DataType.text => "TEXT"
  | Storage.DataType.null => "UNKNOWN"

/-- `execute_describe`: one six-cell row per column. -/
def execute_describe (t : Storage.Table) (callbackPresent : Bool) :
    RistrettoResult × List EmittedRow :=
  if !callbackPresent then (RistrettoResult.ok, [])
  else
    (RistrettoResult.ok, t.columns.map (fun c =>
      [CString.str (asciiOf c.name), CString.str (asciiOf (typeName c.type)),
       CString.str (asciiOf "YES"), CString.str (asciiOf ""),
       CString.str (asciiOf ""), CString.str (asciiOf "")]))

/-- CREATE TABLE text `execute_show_create_table` reconstructs. -/
def createStmtText (t : Storage.Table) : String :=
  "CREATE TABLE " ++ t.name ++ " (\n" ++
    String.intercalate ",\n"
      (t.columns.map (fun c => "  " ++ c.name ++ " " ++ typeName c.type)) ++ "\n)"

/-- `execute_show_create_table`: one two-cell row. -/
def execute_show_create_table (t : Storage.Table) (callbackPresent : Bool) :
    RistrettoResult × List EmittedRow :=
  if !callbackPresent then (RistrettoResult.ok, [])
  else
    (RistrettoResult.ok,
     [[CString.str (asciiOf t.name), CString.str (asciiOf (createStmtText t))]])

/-- `execute_plan`: dispatch on the plan variant.  The catalog comes back
updated where the C code mutates shared state through pointers (table
registration, row insertion). -/
def execute_plan (i2d : Int → Nat) (catalog : Catalog) (plan : QueryPlan)
    (callbackPresent : Bool) : RistrettoResult × Catalog × List EmittedRow :=
  match plan with
  | QueryPlan.createTable c =>
    let p := execute_create_table catalog c
    (p.1, p.2, [])
  | QueryPlan.insert t vals =>
    let p := execute_insert i2d t vals
    (p.1, catalogUpdate catalog p.2, [])
  | QueryPlan.tableScan t filter _ =>
    let p := execute_select t filter callbackPresent
    (p.1, catalog, p.2)
  | QueryPlan.indexScan t filter _ =>
    let p := execute_index_scan t filter callbackPresent
    (p.1, catalog, p.2)
  | QueryPlan.showTables pat =>
    let p := execute_show_tables catalog pat callbackPresent
    (p.1, catalog, p.2)
  | QueryPlan.describe t =>
    let p := execute_describe t callbackPresent
    (p.1, catalog, p.2)
  | QueryPlan.showCreateTable t =>
    let p := execute_show_create_table t callbackPresent
    (p.1, catalog, p.2)

/-- `storage_value_compare` of `query.c`: a type mismatch compares as -1;
`rlt` is the `<` order on `double` bit patterns (IEEE-754 comparison is
outside the model and never decides a claim); TEXT compares by `strcmp`
(a `NULL` data pointer would be undefined in C and reads as empty
here). -/
def storage_value_compare (rlt : Nat → Nat → Bool) (l r : Storage.Value) : Int :=
  match l, r with
  | Storage.Value.vInt a, Storage.Value.vInt b =>
    if a < b then -1 else if b < a then 1 else 0
  | Storage.Value.vReal a, Storage.Value.vReal b =>
    if rlt a b then -1 else if rlt b a then 1 else 0
  | Storage.Value.vText da _, Storage.Value.vText db _ =>
    strcmpBytes (da.getD []) (db.getD [])
  | Storage.Value.vNull, Storage.Value.vNull => 0
  | _, _ => -1

/-- `evaluate_expr_to_value`: a literal copies itself; a column reference
reads the current row; anything else is `NULL`. -/
def evaluate_expr_to_value (e : Expr) (row : List Nat) (t : Storage.Table) :
    Option Storage.Value :=
  match e with
  | Expr.lit v => some v
  | Expr.col _ cn =>
    match t.columns.findIdx? (fun c => c.name == cn) with
    | none => none
    | some i => Storage.storage_row_get_value row t i
  | Expr.bin _ _ _ => none

/-- `evaluate_comparison`: evaluate both operands, compare, and apply the
operator; a failed operand evaluation is false. -/
def evaluate_comparison (rlt : Nat → Nat → Bool) (op : BinaryOp) (l r : Expr)
    (row : List Nat) (t : Storage.Table) : Bool :=
  match evaluate_expr_to_value l row t, evaluate_expr_to_value r row t with
  | some lv, some rv =>
    let cmp := storage_value_compare rlt lv rv
    match op with
    | BinaryOp.opEq => cmp == 0
    | BinaryOp.opNe => !(cmp == 0)
    | BinaryOp.opLt => decide (cmp < 0)
    | BinaryOp.opLe => decide (cmp ≤ 0)
    | BinaryOp.opGt => decide (0 < cmp)
    | BinaryOp.opGe => decide (0 ≤ cmp)
    | _ => false
  | _, _ => false

/-- `evaluate_expr`, the generic predicate evaluator of `query.c` (a `NULL`
expression evaluates to true at its call sites): literal truthiness,
column non-nullness, AND/OR, and comparisons.  `query.c` defines it and
exports it in `query.h`, but no executor path calls it. -/
def evaluate_expr (rlt : Nat → Nat → Bool) :
    Expr → List Nat → Storage.Table → Bool
  | Expr.lit v, _, _ => !(v.typeTag == Storage.DataType.null)
  | Expr.col _ cn, row, t =>
    (match t.columns.findIdx? (fun c => c.name == cn) with
     | none => false
     | some i =>
       match Storage.storage_row_get_value row t i with
       | some v => !(v.typeTag == Storage.DataType.null)
       | none => false)
  | Expr.bin op l r, row, t =>
    match op with
    | BinaryOp.opAnd => evaluate_expr rlt l row t && evaluate_expr rlt r row t
    | BinaryOp.opOr => evaluate_expr rlt l row t || evaluate_expr rlt r row t
    | _ => evaluate_comparison rlt op l r row t

end Query

namespace Db

/-- `ristretto_query` after `parse_sql`: the parse outcome is the
`parsed` argument (`none` for a parse failure); a `NULL` plan — unknown
table or column — maps to the generic `RISTRETTO_ERROR`; otherwise the
plan executes with the caller's row sink. -/
def ristretto_query (i2d : Int → Nat) (catalog : Query.Catalog)
    (parsed : Option Query.Statement) (callbackPresent : Bool) :
    RistrettoResult × Query.Catalog × List Query.EmittedRow :=
  match parsed with
  | none => (RistrettoResult.parseError, catalog, [])
  | some stmt =>
    match Query.plan_statement stmt catalog with
    | none => (RistrettoResult.error, catalog, [])
    | some plan => Query.execute_plan i2d catalog plan callbackPresent

/-- `ristretto_exec`: the same pipeline with no callback. -/
def ristretto_exec (i2d : Int → Nat) (catalog : Query.Catalog)
    (parsed : Option Query.Statement) :
    RistrettoResult × Query.Catalog × List Query.EmittedRow :=
  ristretto_query i2d catalog parsed false

end Db

namespace TableV2

/-- State invariant of the append path: the write offset tracks the row
count, stays inside the mapped file, and one row always fits after at
most one doubling (`row_size ≤ mapped_size`). -/
def appendInvariant (t : Table) : Prop :=
  t.write_offset = 256 + t.num_rows * t.row_size ∧
  t.write_offset ≤ t.mapped_size ∧ t.row_size ≤ t.mapped_size

/-- Canonical Engine B layout from a given base offset: each column sits at
the prefix sum of the lengths, INTEGER and REAL slots are 8 bytes, TEXT
slots are 1..255 bytes, and the unsupported NULLABLE type is absent —
exactly the shape `table_parse_schema` produces. -/
def layoutOkFrom : Nat → List ColumnDesc → Prop
  | _, [] => True
  | off, c :: cs =>
    c.offset = off ∧
    (match c.type with
     | ColumnType.integer => c.length = 8
     | ColumnType.real => c.length = 8
     | ColumnType.text => 1 ≤ c.length ∧ c.length ≤ 255
     | ColumnType.nullable => False) ∧
    layoutOkFrom (off + c.length) cs

/-- Canonical layout whose row size is the total of the slot lengths. -/
def layoutOk (cols : List ColumnDesc) (row_size : Nat) : Prop :=
  layoutOkFrom 0 cols ∧ row_size = (cols.map (fun c => c.length)).sum

/-- A value list matching a column layout: one non-null value per column,
of the column's type, integers in `int64_t` range, reals an actual 64-bit
pattern, text a present buffer free of zero bytes. -/
def valuesMatch : List ColumnDesc → List Value → Prop
  | [], [] => True
  | c :: cs, v :: vs =>
    v.is_null = false ∧ v.type = c.type ∧
    (match c.type, v.payload with
     | ColumnType.integer, Payload.int i => -(2 ^ 63) ≤ i ∧ i < 2 ^ 63
     | ColumnType.real, Payload.real b => b < 2 ^ 64
     | ColumnType.text, Payload.text d =>
       ∃ data, d = some data ∧ ∀ b ∈ data, b ≠ 0
     | _, _ => False) ∧
    valuesMatch cs vs
  | _, _ => False

/-- Expected read-back of one packed value: INTEGER and REAL unchanged,
TEXT truncated to the first `length - 1` bytes of its buffer; the
`is_null` flag always reads back false. -/
def truncateVal (c : ColumnDesc) (v : Value) : Value :=
  match c.type, v.payload with
  | ColumnType.text, Payload.text (some data) =>
    ⟨ColumnType.text, Payload.text (some (data.take (c.length - 1))), false⟩
  | _, _ => ⟨c.type, v.payload, false⟩

/-- Contents of one column's slot inside a packed row under the canonical
layout: the written bytes padded with the zeroes `memset` left. -/
def encodeSlot (c : ColumnDesc) (v : Value) : List Nat :=
  match c.type with
  | ColumnType.integer => le64 (toPattern64 (intField v))
  | ColumnType.real => le64 (realField v)
  | ColumnType.text =>
    match textField v with
    | some data =>
      let cl := min data.length (c.length - 1)
      data.take cl ++ [0] ++ List.replicate (c.length - (cl + 1)) 0
    | none => List.replicate c.length 0
  | ColumnType.nullable => List.replicate c.length 0

/-- Every TEXT value short enough for its column: its byte length is at
most `length - 1`, so the NUL terminator fits without cutting data. -/
def fitsAll : List ColumnDesc → List Value → Prop
  | c :: cs, v :: vs =>
    (match v.payload with
     | Payload.text (some data) => data.length + 1 ≤ c.length
     | _ => True) ∧ fitsAll cs vs
  | _, _ => True

end TableV2

namespace Btree

/-- Lower-bound position of `key` in `l`: the length of the prefix of
strictly smaller keys — what `find_child_index` computes on a sorted key
array. -/
def lowerBound (l : List Nat) (key : Nat) : Nat :=
  (l.takeWhile (fun k => decide (k < key))).length

/-- Fold a sequence of `btree_insert` calls over a node, keeping every
call's boolean result in order. -/
def runInsertsFrom (node : Leaf) : List (Nat × Storage.RowId) → Leaf × List Bool
  | [] => (node, [])
  | op :: ops =>
    let p := btree_insert node op.1 op.2
    let q := runInsertsFrom p.2 ops
    (q.1, p.1 :: q.2)

/-- Fold a sequence of `btree_insert` calls from the empty index
`btree_create` builds. -/
def runInserts (ops : List (Nat × Storage.RowId)) : Leaf × List Bool :=
  runInsertsFrom ⟨[], []⟩ ops

end Btree

namespace Query

/-- Catalog table name a statement resolves (none for CREATE TABLE and
SHOW TABLES, which bind no existing table). -/
def referencedTable : Statement → Option String
  | Statement.insert n _ => some n
  | Statement.select n _ _ => some n
  | Statement.describe n => some n
  | Statement.showCreateTable n => some n
  | _ => none

end Query

/-- Double cast used where no REAL column exists (its value is never
consulted on such paths). -/
def i2dZero : Int → Nat := fun _ => 0

/-- Catalog after `CREATE TABLE t (a INTEGER)` through the executor. -/
def exCatalog : Query.Catalog :=
  (Query.execute_create_table [] ⟨"t", [("a", Storage.DataType.integer)]⟩).2

/-- Catalog after additionally running `INSERT INTO t VALUES (1)` through
the query pipeline. -/
def exCatalog1 : Query.Catalog :=
  (Db.ristretto_query i2dZero exCatalog
    (some (Query.Statement.insert "t" [Storage.Value.vInt 1])) false).2.1

/-- The table `t` of `exCatalog1` (one INTEGER column `a`, one row with
`a = 1`). -/
def exTable : Storage.Table :=
  (Query.find_table exCatalog1 "t").getD (Storage.storage_table_create "t")

/-- The predicate `a < 1`, false on the row of `exTable`; it is supported
by both the generic and the column-vector path and is not an index
equality. -/
def exFilter : Query.Expr :=
  Query.Expr.bin Query.BinaryOp.opLt (Query.Expr.col none "a")
    (Query.Expr.lit (Storage.Value.vInt 1))

/-- An Engine B table state with one INTEGER column and two appended rows,
as reached by `table_create` followed by two `table_append_row` calls. -/
def exTableB : TableV2.Table :=
  ⟨"w", [⟨['a'], TableV2.ColumnType.integer, 8, 0⟩], 8, 2, 272, 1048576,
    [le64 5, le64 6], 2, true⟩

/-- The Engine B table state `table_create "w" "CREATE TABLE w (a
INTEGER)"` builds. -/
def exTableC : TableV2.Table :=
  ⟨"w", [⟨['a'], TableV2.ColumnType.integer, 8, 0⟩], 8, 0, 256, 1048576, [], 0, true⟩

/-- The column layout `table_parse_schema` produces for
`(i INTEGER, r REAL, t TEXT(4))`: prefix-sum offsets, row size 20. -/
def exColsC6 : List TableV2.ColumnDesc :=
  [⟨['i'], TableV2.ColumnType.integer, 8, 0⟩,
   ⟨['r'], TableV2.ColumnType.real, 8, 8⟩,
   ⟨['t'], TableV2.ColumnType.text, 4, 16⟩]

/-- A matching value row: integer 5, a real bit pattern, and the 5-byte
text "ABCDE" — one byte too long for the 4-byte TEXT slot. -/
def exValsC6 : List TableV2.Value :=
  [TableV2.value_integer 5, TableV2.value_real 3,
   TableV2.value_text (some [65, 66, 67, 68, 69])]

/-! Lemmas and claim theorems. -/

/-- Claim C10: every Engine B public operation rejects a null argument
without touching any state: `table_append_row` is false on a null table
handle or values array, `table_select` is false on a null handle or
callback (and invokes the callback on nothing), `table_flush` is false on
a null handle or a null mapping, and `table_get_row_count` is 0 on a null
handle; in each case the returned state is the argument unchanged. -/
theorem claim_C10_null_argument_rejection :
    (∀ v, TableV2.table_append_row none v = (false, none)) ∧
    (∀ t : TableV2.Table, TableV2.table_append_row (some t) none = (false, some t)) ∧
    (∀ w cb, TableV2.table_select none w cb = (false, [])) ∧
    (∀ (t : TableV2.Table) w, TableV2.table_select (some t) w none = (false, [])) ∧
    (TableV2.table_flush none = (false, none)) ∧
    (∀ t : TableV2.Table,
      TableV2.table_flush (some { t with mapped_ptr_valid := false }) =
        (false, some { t with mapped_ptr_valid := false })) ∧
    (TableV2.table_get_row_count none = 0) :=
  ⟨fun _ => rfl, fun _ => rfl, fun _ _ => rfl, fun _ _ => rfl, rfl,
   fun _ => rfl, rfl⟩

/-- Counterexample to claim C3: a SELECT on a table absent from the catalog
comes back as the generic error (code -1), not as NOT_FOUND (code -5). -/
theorem claim_C3_counterexample :
    Db.ristretto_query i2dZero []
      (some (Query.Statement.select "users" none none)) true =
      (RistrettoResult.error, [], []) ∧
    resultCode RistrettoResult.error = -1 ∧
    resultCode RistrettoResult.notFound = -5 ∧
    RistrettoResult.error ≠ RistrettoResult.notFound :=
  ⟨rfl, rfl, rfl, by decide⟩

/-- Claim C3 as amended: a parsed statement referencing a table name not in
the catalog yields the generic ERROR result (-1), not NOT_FOUND (-5), and
the row sink is never invoked. -/
theorem claim_C3_unknown_table_generic_error
    (i2d : Int → Nat) (catalog : Query.Catalog) (stmt : Query.Statement)
    (name : String) (cb : Bool)
    (href : Query.referencedTable stmt = some name)
    (hfind : Query.find_table catalog name = none) :
    Db.ristretto_query i2d catalog (some stmt) cb =
      (RistrettoResult.error, catalog, []) := by
  cases stmt with
  | create c => simp [Query.referencedTable] at href
  | insert n vs =>
    simp [Query.referencedTable] at href
    subst href
    simp [Db.ristretto_query, Query.plan_statement, hfind]
  | select n cols w =>
    simp [Query.referencedTable] at href
    subst href
    simp [Db.ristretto_query, Query.plan_statement, hfind]
  | showTables p => simp [Query.referencedTable] at href
  | describe n =>
    simp [Query.referencedTable] at href
    subst href
    simp [Db.ristretto_query, Query.plan_statement, hfind]
  | showCreateTable n =>
    simp [Query.referencedTable] at href
    subst href
    simp [Db.ristretto_query, Query.plan_statement, hfind]

/-- Witness for the amended claim C3 at a concrete input. -/
theorem claim_C3_unknown_table_generic_error_witness :
    Query.referencedTable (Query.Statement.select "users" none none) = some "users" ∧
    Query.find_table [] "users" = none ∧
    Db.ristretto_query i2dZero [] (some (Query.Statement.select "users" none none)) true =
      (RistrettoResult.error, [], []) :=
  ⟨rfl, rfl,
   claim_C3_unknown_table_generic_error i2dZero []
     (Query.Statement.select "users" none none) "users" true rfl rfl⟩

/-- A row unpack never fails over supported column types. -/
theorem unpack_isSome (cols : List TableV2.ColumnDesc) (buf : List Nat)
    (h : ∀ c ∈ cols, c.type ≠ TableV2.ColumnType.nullable) :
    (TableV2.table_unpack_row cols buf).isSome := by
  induction cols with
  | nil => simp [TableV2.table_unpack_row]
  | cons c cs ih =>
    have hc := h c (by simp)
    have hcs : ∀ x ∈ cs, x.type ≠ TableV2.ColumnType.nullable :=
      fun x hx => h x (by simp [hx])
    rw [TableV2.table_unpack_row]
    rcases hty : c.type with _ | _ | _ | _ <;>
      simp [TableV2.unpackColumn, hty, ih hcs]
    exact hc hty

/-- A `filterMap` over a function that always succeeds is the map of the
defaulted values. -/
theorem filterMap_eq_map_getD {α β : Type} (f : α → Option β) (d : β)
    (l : List α) (h : ∀ a ∈ l, (f a).isSome) :
    l.filterMap f = l.map (fun a => (f a).getD d) := by
  induction l with
  | nil => rfl
  | cons a l ih =>
    have ha := h a (by simp)
    rcases hf : f a with _ | b
    · rw [hf] at ha; simp at ha
    · simp only [List.filterMap_cons, List.map_cons, hf, Option.getD_some]
      exact congrArg (b :: ·) (ih fun x hx => h x (by simp [hx]))

/-- Claim C9: over supported column types, `table_select` invokes the row
sink once per row index `0..num_rows-1`, in order, with that row's
unpacked values, and its outcome does not depend on the `where_clause`
argument at all. -/
theorem claim_C9_select_ignores_where
    (t : TableV2.Table) (w w' : Option String)
    (h : ∀ c ∈ t.columns, c.type ≠ TableV2.ColumnType.nullable) :
    TableV2.table_select (some t) w (some ()) =
      (true, (List.range t.num_rows).map (fun i =>
        (TableV2.table_unpack_row t.columns
          (t.tail.getD i (List.replicate t.row_size 0))).getD [])) ∧
    TableV2.table_select (some t) w (some ()) =
      TableV2.table_select (some t) w' (some ()) := by
  constructor
  · show (true, TableV2.selectRows t.columns t.row_size t.tail t.num_rows) = _
    rw [TableV2.selectRows,
      filterMap_eq_map_getD _ []
        _ (fun i _ => unpack_isSome t.columns _ h)]
  · rfl

/-- Witness for claim C9 at a concrete table (one INTEGER column, two
appended rows). -/
theorem claim_C9_select_ignores_where_witness :
    (∀ c ∈ exTableB.columns, c.type ≠ TableV2.ColumnType.nullable) ∧
    TableV2.table_select (some exTableB) (some "x > 1") (some ()) =
      (true, (List.range exTableB.num_rows).map (fun i =>
        (TableV2.table_unpack_row exTableB.columns
          (exTableB.tail.getD i (List.replicate exTableB.row_size 0))).getD [])) :=
  ⟨by decide,
   (claim_C9_select_ignores_where exTableB (some "x > 1") none (by decide)).1⟩

/-- The schema-parser loop never yields more than 14 columns. -/
theorem parseLoop_length_le (cs : List Char) (endIdx : Nat) :
    ∀ (fuel cur : Nat) (acc : List TableV2.ColumnDesc) (off : Nat)
      (cols : List TableV2.ColumnDesc) (rs : Nat),
      acc.length ≤ 14 →
      TableV2.parseLoop cs endIdx fuel cur acc off = some (cols, rs) →
      cols.length ≤ 14 := by
  intro fuel
  induction fuel with
  | zero =>
    intro cur acc off cols rs hacc h
    rw [TableV2.parseLoop] at h
    simp only [Option.some.injEq, Prod.mk.injEq] at h
    rw [← h.1]; exact hacc
  | succ fuel ih =>
    intro cur acc off cols rs hacc h
    rw [TableV2.parseLoop] at h
    split at h
    case isFalse =>
      simp only [Option.some.injEq, Prod.mk.injEq] at h
      rw [← h.1]; exact hacc
    case isTrue hguard =>
      dsimp only at h
      split at h
      case h_1 =>
        simp only [Option.some.injEq, Prod.mk.injEq] at h
        rw [← h.1]; exact hacc
      case h_2 name type_str heq =>
        split at h
        case h_1 => exact absurd h (by simp)
        case h_2 ty len hty =>
          split at h
          case isTrue =>
            simp only [Option.some.injEq, Prod.mk.injEq] at h
            rw [← h.1]; simp; omega
          case isFalse =>
            exact ih _ _ _ _ _ (by simp; omega) h

set_option maxRecDepth 8192

/-- Counterexample to claim C5: a 15-column schema does not fail the
create — the table comes back non-null, holding only the first 14
columns. -/
theorem claim_C5_counterexample :
    TableV2.table_create "t"
      "CREATE TABLE t (c1 INTEGER, c2 INTEGER, c3 INTEGER, c4 INTEGER, c5 INTEGER, c6 INTEGER, c7 INTEGER, c8 INTEGER, c9 INTEGER, c10 INTEGER, c11 INTEGER, c12 INTEGER, c13 INTEGER, c14 INTEGER, c15 INTEGER)"
      ≠ none ∧
    (TableV2.table_create "t"
      "CREATE TABLE t (c1 INTEGER, c2 INTEGER, c3 INTEGER, c4 INTEGER, c5 INTEGER, c6 INTEGER, c7 INTEGER, c8 INTEGER, c9 INTEGER, c10 INTEGER, c11 INTEGER, c12 INTEGER, c13 INTEGER, c14 INTEGER, c15 INTEGER)").map
      (fun t => t.columns.map (fun c => c.name.asString)) =
      some ["c1", "c2", "c3", "c4", "c5", "c6", "c7", "c8", "c9", "c10",
            "c11", "c12", "c13", "c14"] :=
  ⟨by decide, by decide⟩

/-- Claim C5 as amended: a schema of exactly 14 accepted columns succeeds
with all 14; a schema of 15 or more columns also succeeds (creation does
not fail), the parser stopping after the first 14 columns, and no parse
ever yields more than 14 columns. -/
theorem claim_C5_schema_truncates_at_14 :
    (∀ (s : String) cols rs,
      TableV2.table_parse_schema s = some (cols, rs) → cols.length ≤ 14) ∧
    (TableV2.table_create "t"
      "CREATE TABLE t (c1 INTEGER, c2 INTEGER, c3 INTEGER, c4 INTEGER, c5 INTEGER, c6 INTEGER, c7 INTEGER, c8 INTEGER, c9 INTEGER, c10 INTEGER, c11 INTEGER, c12 INTEGER, c13 INTEGER, c14 INTEGER)").map
      (fun t => t.columns.map (fun c => c.name.asString)) =
      some ["c1", "c2", "c3", "c4", "c5", "c6", "c7", "c8", "c9", "c10",
            "c11", "c12", "c13", "c14"] ∧
    (TableV2.table_create "t"
      "CREATE TABLE t (c1 INTEGER, c2 INTEGER, c3 INTEGER, c4 INTEGER, c5 INTEGER, c6 INTEGER, c7 INTEGER, c8 INTEGER, c9 INTEGER, c10 INTEGER, c11 INTEGER, c12 INTEGER, c13 INTEGER, c14 INTEGER, c15 INTEGER)").map
      (fun t => t.columns.map (fun c => c.name.asString)) =
      some ["c1", "c2", "c3", "c4", "c5", "c6", "c7", "c8", "c9", "c10",
            "c11", "c12", "c13", "c14"] := by
  refine ⟨?_, by decide, by decide⟩
  intro s cols rs h
  rw [TableV2.table_parse_schema] at h
  split at h
  · exact absurd h (by simp)
  · split at h
    · exact absurd h (by simp)
    · split at h
      · exact absurd h (by simp)
      case h_2 cols0 rs0 heq =>
        split at h
        · simp only [Option.some.injEq, Prod.mk.injEq] at h
          rw [← h.1]
          exact parseLoop_length_le _ _ _ _ _ _ _ _ (by simp) heq
        · exact absurd h (by simp)

/-- Witness for the amended claim C5's universal part at a concrete
schema. -/
theorem claim_C5_schema_truncates_at_14_witness :
    TableV2.table_parse_schema "CREATE TABLE t (a INTEGER)" =
      some ([⟨['a'], TableV2.ColumnType.integer, 8, 0⟩], 8) ∧
    ([⟨['a'], TableV2.ColumnType.integer, 8, 0⟩] :
      List TableV2.ColumnDesc).length ≤ 14 :=
  ⟨by decide,
   claim_C5_schema_truncates_at_14.1 "CREATE TABLE t (a INTEGER)"
     [⟨['a'], TableV2.ColumnType.integer, 8, 0⟩] 8 (by decide)⟩

/-- Every column length the schema parser accepts is at most 255 bytes. -/
theorem parseColType_len_le (ts : List Char) (ty : TableV2.ColumnType) (len : Nat)
    (h : TableV2.parseColType ts = some (ty, len)) : len ≤ 255 := by
  rw [TableV2.parseColType] at h
  split at h
  · simp only [Option.some.injEq, Prod.mk.injEq] at h
    omega
  · split at h
    · simp only [Option.some.injEq, Prod.mk.injEq] at h
      omega
    · split at h
      · split at h
        case h_1 n heq =>
          have h1 := Int.emod_nonneg n (by norm_num : (256 : Int) ≠ 0)
          have h2 := Int.emod_lt_of_pos n (by norm_num : (0 : Int) < 256)
          simp only [Option.some.injEq, Prod.mk.injEq] at h
          split at h <;> omega
        case h_2 =>
          simp only [Option.some.injEq, Prod.mk.injEq] at h
          omega
      · exact absurd h (by simp)

/-- Row-size bound of the schema-parser loop: at most 255 bytes per column
still to be parsed. -/
theorem parseLoop_rs_le (cs : List Char) (endIdx : Nat) :
    ∀ (fuel cur : Nat) (acc : List TableV2.ColumnDesc) (off : Nat)
      (cols : List TableV2.ColumnDesc) (rs : Nat),
      TableV2.parseLoop cs endIdx fuel cur acc off = some (cols, rs) →
      rs ≤ off + (14 - acc.length) * 255 := by
  intro fuel
  induction fuel with
  | zero =>
    intro cur acc off cols rs h
    rw [TableV2.parseLoop] at h
    simp only [Option.some.injEq, Prod.mk.injEq] at h
    omega
  | succ fuel ih =>
    intro cur acc off cols rs h
    rw [TableV2.parseLoop] at h
    split at h
    case isFalse =>
      simp only [Option.some.injEq, Prod.mk.injEq] at h
      omega
    case isTrue hguard =>
      dsimp only at h
      split at h
      case h_1 =>
        simp only [Option.some.injEq, Prod.mk.injEq] at h
        omega
      case h_2 name type_str heq =>
        split at h
        case h_1 => exact absurd h (by simp)
        case h_2 ty len hty =>
          have hlen := parseColType_len_le _ _ _ hty
          split at h
          case isTrue =>
            simp only [Option.some.injEq, Prod.mk.injEq] at h
            omega
          case isFalse =>
            have := ih _ _ _ _ _ h
            simp only [List.length_append, List.length_cons, List.length_nil] at this
            omega

/-- A parsed schema's row size is at most `14 * 255 = 3570` bytes. -/
theorem table_parse_schema_rs_le (s : String) (cols : List TableV2.ColumnDesc)
    (rs : Nat) (h : TableV2.table_parse_schema s = some (cols, rs)) : rs ≤ 3570 := by
  rw [TableV2.table_parse_schema] at h
  split at h
  · exact absurd h (by simp)
  · split at h
    · exact absurd h (by simp)
    · split at h
      · exact absurd h (by simp)
      case h_2 cols0 rs0 heq =>
        split at h
        · simp only [Option.some.injEq, Prod.mk.injEq] at h
          have := parseLoop_rs_le _ _ _ _ _ _ _ _ heq
          simp only [List.length_nil] at this
          omega
        · exact absurd h (by simp)

/-- The second component of a `table_flush` on a live handle. -/
theorem table_flush_snd (t : TableV2.Table) :
    (TableV2.table_flush (some t)).2 =
      some (if t.mapped_ptr_valid then { t with rows_since_sync := 0 } else t) := by
  cases h : t.mapped_ptr_valid <;> simp [TableV2.table_flush, h]

/-- Claim C7: `table_create` establishes the append invariant
(`write_offset = 256 + num_rows * row_size` and
`write_offset ≤ mapped_size`), every `table_append_row` preserves it, and
an append that returns false leaves `num_rows` and `write_offset`
unchanged. -/
theorem claim_C7_append_invariant :
    (∀ (name schema : String) (t : TableV2.Table),
      TableV2.table_create name schema = some t → TableV2.appendInvariant t) ∧
    (∀ (t : TableV2.Table) (vs : List TableV2.Value),
      TableV2.appendInvariant t →
      (TableV2.table_append_row (some t) (some vs)).2.isSome ∧
      ∀ t', (TableV2.table_append_row (some t) (some vs)).2 = some t' →
        TableV2.appendInvariant t' ∧
        ((TableV2.table_append_row (some t) (some vs)).1 = false →
          t'.num_rows = t.num_rows ∧ t'.write_offset = t.write_offset)) := by
  constructor
  · intro name schema t h
    rw [TableV2.table_create] at h
    split at h
    · exact absurd h (by simp)
    case h_2 cols row_size heq =>
      have hrs := table_parse_schema_rs_le _ _ _ heq
      simp only [Option.some.injEq] at h
      rw [← h]
      refine ⟨by simp, by norm_num, by simp; omega⟩
  · intro t vs hinv
    obtain ⟨h1, h2, h3⟩ := hinv
    have hens : ∃ ms, TableV2.table_ensure_space t t.row_size =
        (true, { t with mapped_size := ms }) ∧
        t.write_offset + t.row_size ≤ ms ∧ t.mapped_size ≤ ms := by
      by_cases hsp : t.write_offset + t.row_size ≤ t.mapped_size
      · exact ⟨t.mapped_size, by simp [TableV2.table_ensure_space, hsp], hsp, le_rfl⟩
      · refine ⟨t.mapped_size * 2,
          by simp [TableV2.table_ensure_space, hsp, TableV2.table_remap], by omega,
          by omega⟩
    obtain ⟨ms, hens, hfit, hgrow⟩ := hens
    rw [TableV2.table_append_row, hens]
    dsimp only
    rcases hpk : TableV2.table_pack_row t.columns t.row_size vs with _ | row
    · dsimp only
      refine ⟨by simp, ?_⟩
      intro t' ht'
      simp only [Option.some.injEq] at ht'
      rw [← ht']
      exact ⟨⟨h1, by simp; omega, by simp; omega⟩, fun _ => ⟨rfl, rfl⟩⟩
    · dsimp only
      split
      case isTrue =>
        rw [table_flush_snd]
        split
        case isTrue =>
          refine ⟨by simp, ?_⟩
          intro t' ht'
          simp only [Option.some.injEq] at ht'
          rw [← ht']
          refine ⟨⟨by simp [h1]; ring, by simp; omega, by simp; omega⟩, ?_⟩
          intro hfalse
          exact absurd hfalse (by simp)
        case isFalse =>
          refine ⟨by simp, ?_⟩
          intro t' ht'
          simp only [Option.some.injEq] at ht'
          rw [← ht']
          refine ⟨⟨by simp [h1]; ring, by simp; omega, by simp; omega⟩, ?_⟩
          intro hfalse
          exact absurd hfalse (by simp)
      case isFalse =>
        refine ⟨by simp, ?_⟩
        intro t' ht'
        simp only [Option.some.injEq] at ht'
        rw [← ht']
        refine ⟨⟨by simp [h1]; ring, by simp; omega, by simp; omega⟩, ?_⟩
        intro hfalse
        exact absurd hfalse (by simp)

/-- Witness for claim C7 at a concrete created table and one append. -/
theorem claim_C7_append_invariant_witness :
    TableV2.table_create "w" "CREATE TABLE w (a INTEGER)" = some exTableC ∧
    TableV2.appendInvariant exTableC ∧
    (TableV2.table_append_row (some exTableC) (some [TableV2.value_integer 5])).2.isSome :=
  ⟨by decide,
   claim_C7_append_invariant.1 "w" "CREATE TABLE w (a INTEGER)" exTableC (by decide),
   (claim_C7_append_invariant.2 exTableC [TableV2.value_integer 5]
     (claim_C7_append_invariant.1 "w" "CREATE TABLE w (a INTEGER)" exTableC
       (by decide))).1⟩

namespace Btree

/-- Cons equation of `lowerBound`. -/
theorem lowerBound_cons (x : Nat) (xs : List Nat) (key : Nat) :
    lowerBound (x :: xs) key =
      if x < key then lowerBound xs key + 1 else 0 := by
  by_cases h : x < key <;> simp [lowerBound, List.takeWhile_cons, h]

/-- The lower bound never exceeds the list length. -/
theorem lowerBound_le_length (l : List Nat) (key : Nat) :
    lowerBound l key ≤ l.length := by
  simpa [lowerBound] using
    (List.takeWhile_sublist (fun k => decide (k < key))).length_le

/-- Keys before the lower bound are below the key. -/
theorem lt_key_of_lt_lowerBound :
    ∀ (l : List Nat) (key i : Nat), i < l.length → i < lowerBound l key →
      l.getD i 0 < key := by
  intro l
  induction l with
  | nil => intro key i hi; simp at hi
  | cons x xs ih =>
    intro key i hi h
    rw [lowerBound_cons] at h
    by_cases hx : x < key
    · rw [if_pos hx] at h
      cases i with
      | zero => simpa using hx
      | succ j =>
        have := ih key j (by simpa using hi) (by omega)
        simpa using this
    · rw [if_neg hx] at h
      omega

/-- The key at the lower-bound position is not below the key. -/
theorem key_le_boundary :
    ∀ (l : List Nat) (key : Nat), lowerBound l key < l.length →
      key ≤ l.getD (lowerBound l key) 0 := by
  intro l
  induction l with
  | nil => intro key h; simp [lowerBound] at h
  | cons x xs ih =>
    intro key h
    rw [lowerBound_cons] at h ⊢
    by_cases hx : x < key
    · rw [if_pos hx] at h ⊢
      have := ih key (by simpa using h)
      simpa using this
    · rw [if_neg hx] at h ⊢
      simpa using Nat.le_of_not_lt hx

/-- Strict monotonicity of a sorted list's entries, in `getD` form. -/
theorem sorted_getD_lt (l : List Nat) (hs : l.Sorted (· < ·)) (i j : Nat)
    (hij : i < j) (hj : j < l.length) : l.getD i 0 < l.getD j 0 := by
  have hi : i < l.length := lt_trans hij hj
  rw [List.getD_eq_getElem _ _ hi, List.getD_eq_getElem _ _ hj]
  exact hs.rel_get_of_lt (a := ⟨i, hi⟩) (b := ⟨j, hj⟩) hij

/-- Uniqueness of the lower bound: a split point with everything below the
key on its left and nothing below the key from it on is the lower
bound. -/
theorem lowerBound_eq_of (l : List Nat) (key left : Nat)
    (hlen : left ≤ l.length)
    (hL : ∀ i, i < left → l.getD i 0 < key)
    (hR : ∀ i, left ≤ i → i < l.length → key ≤ l.getD i 0) :
    lowerBound l key = left := by
  rcases lt_trichotomy (lowerBound l key) left with hlt | heq | hgt
  · have hc : lowerBound l key < l.length := lt_of_lt_of_le hlt hlen
    have h1 := key_le_boundary l key hc
    have h2 := hL _ hlt
    omega
  · exact heq
  · have hlow : left < l.length := lt_of_lt_of_le hgt (lowerBound_le_length l key)
    have h1 := lt_key_of_lt_lowerBound l key left hlow hgt
    have h2 := hR left le_rfl hlow
    omega

/-- The binary-search loop computes the lower bound on a sorted key
array. -/
theorem fciAux_eq (l : List Nat) (key : Nat) (hs : l.Sorted (· < ·)) :
    ∀ (fuel left right : Nat), right ≤ l.length → left ≤ right →
      right - left ≤ fuel →
      (∀ i, i < left → l.getD i 0 < key) →
      (∀ i, right ≤ i → i < l.length → key ≤ l.getD i 0) →
      fciAux l key fuel left right = lowerBound l key := by
  intro fuel
  induction fuel with
  | zero =>
    intro left right hr hlr hfuel hL hR
    have hlr2 : left = right := by omega
    subst hlr2
    rw [fciAux]
    exact (lowerBound_eq_of l key left (by omega) hL
      (fun i hi hlen => hR i hi hlen)).symm
  | succ fuel ih =>
    intro left right hr hlr hfuel hL hR
    rw [fciAux]
    split
    case isTrue hlt =>
      dsimp only
      split
      case isTrue hmid =>
        apply ih left ((left + right) / 2) (by omega) (by omega) (by omega) hL
        intro i hi hlen
        rcases eq_or_lt_of_le hi with heq | hlt2
        · rw [← heq]; exact hmid
        · exact le_of_lt (lt_of_le_of_lt hmid (sorted_getD_lt l hs _ _ hlt2 hlen))
      case isFalse hmid =>
        have hmlen : (left + right) / 2 < l.length := by omega
        have hmidlt : l.getD ((left + right) / 2) 0 < key := Nat.lt_of_not_le hmid
        apply ih ((left + right) / 2 + 1) right hr (by omega) (by omega) ?_ hR
        intro i hi
        rcases Nat.lt_succ_iff_lt_or_eq.mp hi with h2 | h2
        · exact lt_trans (sorted_getD_lt l hs i _ h2 hmlen) hmidlt
        · rw [h2]; exact hmidlt
    case isFalse hge =>
      have hlr2 : left = right := by omega
      subst hlr2
      exact (lowerBound_eq_of l key left (by omega) hL
        (fun i hi hlen => hR i hi hlen)).symm

/-- `find_child_index` computes the lower bound on a sorted key array. -/
theorem find_child_index_eq (l : List Nat) (key : Nat)
    (hs : l.Sorted (· < ·)) : find_child_index l key = lowerBound l key := by
  rw [find_child_index]
  exact fciAux_eq l key hs (l.length + 1) 0 l.length le_rfl (by omega) (by omega)
    (fun i hi => absurd hi (by omega)) (fun i hi hlen => absurd hlen (by omega))

/-- Duplicate detection: on a sorted key array the key is present iff it
sits exactly at its lower-bound position. -/
theorem mem_iff_lowerBound (l : List Nat) (key : Nat) (hs : l.Sorted (· < ·)) :
    key ∈ l ↔ lowerBound l key < l.length ∧ l.getD (lowerBound l key) 0 = key := by
  induction l with
  | nil => simp [lowerBound]
  | cons x xs ih =>
    have hcons := List.sorted_cons.mp hs
    rw [lowerBound_cons]
    by_cases hx : x < key
    · rw [if_pos hx]
      have hne : ¬ key = x := by omega
      simp only [List.mem_cons, hne, false_or, List.length_cons,
        Nat.add_lt_add_iff_right, List.getD_cons_succ]
      exact ih hcons.2
    · rw [if_neg hx]
      have : key ∈ xs → x < key := fun h => hcons.1 key h
      simp only [List.mem_cons, List.length_cons, List.getD_cons_zero]
      constructor
      · rintro (rfl | hmem)
        · exact ⟨by omega, rfl⟩
        · exact absurd (this hmem) hx
      · rintro ⟨-, rfl⟩
        exact Or.inl rfl

/-- Inserting an absent key at its lower bound keeps the key array
sorted. -/
theorem sorted_insertIdx_lowerBound (l : List Nat) (key : Nat)
    (hs : l.Sorted (· < ·)) (hnot : key ∉ l) :
    (l.insertIdx (lowerBound l key) key).Sorted (· < ·) := by
  induction l with
  | nil => simp [lowerBound, List.insertIdx_zero]
  | cons x xs ih =>
    have hcons := List.sorted_cons.mp hs
    rw [lowerBound_cons]
    by_cases hx : x < key
    · rw [if_pos hx, List.insertIdx_succ_cons]
      apply List.sorted_cons.mpr
      refine ⟨?_, ih hcons.2 (fun h => hnot (List.mem_cons_of_mem x h))⟩
      intro b hb
      rcases (List.mem_insertIdx (lowerBound_le_length xs key)).mp hb with rfl | hbmem
      · exact hx
      · exact hcons.1 b hbmem
    · rw [if_neg hx, List.insertIdx_zero]
      apply List.sorted_cons.mpr
      refine ⟨?_, hs⟩
      intro b hb
      rcases List.mem_cons.mp hb with rfl | hbmem
      · have : ¬ key = b := fun h => hnot (h ▸ List.mem_cons_self b xs)
        omega
      · have := hcons.1 b hbmem
        omega

/-- A `btree_insert` of a key the sorted index already holds changes
nothing and reports false. -/
theorem btree_insert_duplicate (node : Leaf) (key : Nat) (v : Storage.RowId)
    (hs : node.keys.Sorted (· < ·)) (hmem : key ∈ node.keys) :
    btree_insert node key v = (false, node) := by
  rw [btree_insert, leaf_node_insert]
  by_cases hfull : 254 ≤ node.keys.length
  · rw [if_pos hfull]
  · rw [if_neg hfull]
    dsimp only
    rw [find_child_index_eq _ _ hs,
      if_pos ((mem_iff_lowerBound _ _ hs).mp hmem)]

/-- One `btree_insert` step preserves the node invariant (sorted keys,
parallel arrays) and grows the key count exactly when it reports true. -/
theorem insert_step (node : Leaf) (key : Nat) (v : Storage.RowId)
    (hs : node.keys.Sorted (· < ·))
    (hlen : node.vals.length = node.keys.length) :
    (btree_insert node key v).2.keys.Sorted (· < ·) ∧
    (btree_insert node key v).2.vals.length =
      (btree_insert node key v).2.keys.length ∧
    (btree_insert node key v).2.keys.length =
      node.keys.length + (if (btree_insert node key v).1 then 1 else 0) := by
  rw [btree_insert, leaf_node_insert]
  by_cases hfull : 254 ≤ node.keys.length
  · rw [if_pos hfull]
    exact ⟨hs, hlen, by simp⟩
  · rw [if_neg hfull]
    dsimp only
    rw [find_child_index_eq _ _ hs]
    by_cases hdup : lowerBound node.keys key < node.keys.length ∧
        node.keys.getD (lowerBound node.keys key) 0 = key
    · rw [if_pos hdup]
      exact ⟨hs, hlen, by simp⟩
    · rw [if_neg hdup]
      have hnotmem : key ∉ node.keys :=
        fun hm => hdup ((mem_iff_lowerBound _ _ hs).mp hm)
      have hle : lowerBound node.keys key ≤ node.keys.length :=
        lowerBound_le_length _ _
      refine ⟨sorted_insertIdx_lowerBound _ _ hs hnotmem, ?_, ?_⟩
      · dsimp only
        rw [List.length_insertIdx _ _ hle,
          List.length_insertIdx _ _ (hlen ▸ hle), hlen]
      · dsimp only
        rw [List.length_insertIdx _ _ hle]
        simp

/-- Folding inserts preserves the node invariant and grows the key count by
the number of inserts that returned true. -/
theorem runInsertsFrom_spec (ops : List (Nat × Storage.RowId)) :
    ∀ node : Leaf, node.keys.Sorted (· < ·) →
      node.vals.length = node.keys.length →
      (runInsertsFrom node ops).1.keys.Sorted (· < ·) ∧
      (runInsertsFrom node ops).1.vals.length =
        (runInsertsFrom node ops).1.keys.length ∧
      (runInsertsFrom node ops).1.keys.length =
        node.keys.length + (runInsertsFrom node ops).2.count true := by
  induction ops with
  | nil => intro node hs hlen; simpa [runInsertsFrom] using ⟨hs, hlen⟩
  | cons op ops ih =>
    intro node hs hlen
    obtain ⟨hs2, hlen2, hcount2⟩ := insert_step node op.1 op.2 hs hlen
    obtain ⟨hs3, hlen3, hcount3⟩ := ih (btree_insert node op.1 op.2).2 hs2 hlen2
    rw [runInsertsFrom]
    refine ⟨hs3, hlen3, ?_⟩
    dsimp only
    rw [hcount3, hcount2, List.count_cons]
    rcases (btree_insert node op.1 op.2).1 with _ | _ <;> simp <;> omega

/-- The cursor loop enumerates the zipped key and value arrays from the
current cell on. -/
theorem enumAux_eq (node : Leaf) (hlen : node.vals.length = node.keys.length) :
    ∀ (fuel i : Nat), node.keys.length - i ≤ fuel →
      enumAux node fuel ⟨i, decide (node.keys.length ≤ i)⟩ =
        (node.keys.zip node.vals).drop i := by
  have hziplen : (node.keys.zip node.vals).length = node.keys.length := by
    rw [List.length_zip, hlen, Nat.min_self]
  intro fuel
  induction fuel with
  | zero =>
    intro i hf
    rw [enumAux]
    symm
    exact List.drop_eq_nil_of_le (by omega)
  | succ fuel ih =>
    intro i hf
    rw [enumAux]
    by_cases hend : node.keys.length ≤ i
    · rw [if_pos (by simpa [btree_cursor_at_end] using hend)]
      symm
      exact List.drop_eq_nil_of_le (by omega)
    · have hlt : i < node.keys.length := Nat.lt_of_not_le hend
      have hvlt : i < node.vals.length := by omega
      have hzlt : i < (node.keys.zip node.vals).length := by omega
      rw [if_neg (by simpa [btree_cursor_at_end] using hend)]
      rw [List.drop_eq_getElem_cons hzlt]
      congr 1
      · rw [List.getElem_zip]
        rw [btree_cursor_key, btree_cursor_value]
        dsimp only
        rw [List.getD_eq_getElem _ _ hlt, List.getD_eq_getElem _ _ hvlt]
      · have hadv : btree_cursor_advance node ⟨i, decide (node.keys.length ≤ i)⟩ =
            ⟨i + 1, decide (node.keys.length ≤ i + 1)⟩ := by
          rw [btree_cursor_advance]
          rw [if_neg (by simpa using hend)]
        rw [hadv]
        exact ih (i + 1) (by omega)

/-- Full cursor enumeration visits exactly the zipped key and value
arrays. -/
theorem cursorEnum_eq (node : Leaf)
    (hlen : node.vals.length = node.keys.length) :
    cursorEnum node = node.keys.zip node.vals := by
  have hfirst : btree_cursor_first node =
      ⟨0, decide (node.keys.length ≤ 0)⟩ := by
    rw [btree_cursor_first]
    cases h : node.keys.length <;> simp [h]
  rw [cursorEnum, hfirst]
  simpa using enumAux_eq node hlen (node.keys.length + 1) 0 (by omega)

end Btree

/-- Claim C8: after any sequence of `btree_insert` calls from the empty
index, the cursor enumeration (`first`, then `advance` until `at_end`)
visits exactly one entry per insert that returned true, with keys in
strictly increasing order. -/
theorem claim_C8_cursor_enumeration (ops : List (Nat × Storage.RowId)) :
    ((Btree.cursorEnum (Btree.runInserts ops).1).map Prod.fst).Sorted (· < ·) ∧
    (Btree.cursorEnum (Btree.runInserts ops).1).length =
      (Btree.runInserts ops).2.count true := by
  obtain ⟨hs, hlen, hcount⟩ :=
    Btree.runInsertsFrom_spec ops ⟨[], []⟩ (by simp) (by simp)
  rw [Btree.runInserts, Btree.cursorEnum_eq _ hlen]
  constructor
  · rw [List.map_fst_zip _ _ (le_of_eq hlen.symm)]
    exact hs
  · rw [List.length_zip, hlen, Nat.min_self]
    simpa using hcount

/-- Counterexample to claim C4: with 254 keys present (the leaf's hard
capacity), inserting the fresh key 300 returns false even though the key
is absent. -/
theorem claim_C4_counterexample :
    Btree.btree_insert ⟨List.range 254, List.replicate 254 ⟨1, 8⟩⟩ 300 ⟨1, 8⟩ =
      (false, ⟨List.range 254, List.replicate 254 ⟨1, 8⟩⟩) ∧
    (300 : Nat) ∉ List.range 254 :=
  ⟨by decide, by decide⟩

/-- Claim C4 as amended: on a sorted index node, `btree_insert` returns
true iff the key is not already present and the leaf holds fewer than
`BTREE_ORDER - 1 = 254` keys; an insert into a full leaf is silently
rejected. -/
theorem claim_C4_insert_true_iff (node : Btree.Leaf) (key : Nat)
    (v : Storage.RowId) (hs : node.keys.Sorted (· < ·)) :
    (Btree.btree_insert node key v).1 = true ↔
      key ∉ node.keys ∧ node.keys.length < 254 := by
  rw [Btree.btree_insert, Btree.leaf_node_insert]
  by_cases hfull : 254 ≤ node.keys.length
  · rw [if_pos hfull]
    simp
    omega
  · rw [if_neg hfull]
    dsimp only
    rw [Btree.find_child_index_eq _ _ hs]
    by_cases hdup : Btree.lowerBound node.keys key < node.keys.length ∧
        node.keys.getD (Btree.lowerBound node.keys key) 0 = key
    · rw [if_pos hdup]
      have : key ∈ node.keys := (Btree.mem_iff_lowerBound _ _ hs).mpr hdup
      simp [this]
    · rw [if_neg hdup]
      have : key ∉ node.keys :=
        fun hm => hdup ((Btree.mem_iff_lowerBound _ _ hs).mp hm)
      simp [this]
      omega

/-- Witness for the amended claim C4 at a concrete sorted node. -/
theorem claim_C4_insert_true_iff_witness :
    (([1, 3] : List Nat).Sorted (· < ·)) ∧
    ((Btree.btree_insert ⟨[1, 3], [⟨1, 8⟩, ⟨1, 16⟩]⟩ 2 ⟨1, 24⟩).1 = true ↔
      (2 : Nat) ∉ ([1, 3] : List Nat) ∧ ([1, 3] : List Nat).length < 254) :=
  ⟨by decide,
   claim_C4_insert_true_iff ⟨[1, 3], [⟨1, 8⟩, ⟨1, 16⟩]⟩ 2 ⟨1, 24⟩ (by decide)⟩

/-- Claim C2: an INSERT whose index key (the first column value as u32) is
already present still appends the row — the table's row count increments
and the packed row lands on the page — while the primary index stays
unchanged (the duplicate index insertion is silently dropped) and the
reported result is OK, not a constraint error. -/
theorem claim_C2_duplicate_key_insert_ok
    (i2d : Int → Nat) (t : Storage.Table) (c0 : Storage.Column)
    (cs : List Storage.Column) (k : Int) (vs vals : List Storage.Value)
    (leaf : Btree.Leaf)
    (hcols : t.columns = c0 :: cs)
    (hc0 : c0.type = Storage.DataType.integer)
    (hlen : (Storage.Value.vInt k :: vs).length = t.columns.length)
    (hco : Query.coerceValues i2d t.columns (Storage.Value.vInt k :: vs) = some vals)
    (hroom : t.rows.length * t.row_size + 8 + t.row_size ≤ 4096)
    (hidx : t.primary_index = some leaf)
    (hsorted : leaf.keys.Sorted (· < ·))
    (hdup : toPattern32 k ∈ leaf.keys) :
    Query.execute_insert i2d t (Storage.Value.vInt k :: vs) =
      (RistrettoResult.ok,
        { t with
            root_page := if t.root_page = 0 then 1 else t.root_page,
            row_count := t.row_count + 1,
            rows := t.rows ++ [Query.setAllValues t vals] }) := by
  obtain ⟨nm, cols0, rsz, rp, rc, nri, pi, rws⟩ := t
  simp only at hcols hroom hidx
  subst hcols
  subst hidx
  have hvals : ∃ vs1, Query.coerceValues i2d cs vs = some vs1 ∧
      vals = Storage.Value.vInt k :: vs1 := by
    rw [Query.coerceValues] at hco
    rcases hrest : Query.coerceValues i2d cs vs with _ | vs1 <;> rw [hrest] at hco
    · simp only [Storage.Value.typeTag, hc0, beq_iff_eq, reduceCtorEq, if_false,
        if_true, if_pos rfl] at hco
    · refine ⟨vs1, rfl, ?_⟩
      simp only [Storage.Value.typeTag, hc0, beq_iff_eq, reduceCtorEq,
        if_false, if_pos rfl] at hco
      revert hco
      split <;> simp_all
  obtain ⟨vs1, hrest, hv⟩ := hvals
  subst hv
  rw [Query.execute_insert, if_neg (by simp [hlen]), hco]
  dsimp only
  have hnot : ¬ 4096 < rws.length * rsz + 8 + rsz := by omega
  have hdupins := Btree.btree_insert_duplicate leaf (toPattern32 k)
    ⟨if rp = 0 then 1 else rp, rws.length * rsz + 8⟩ hsorted hdup
  by_cases hroot : rp = 0
  · subst hroot
    simp only [Storage.table_insert_row, if_pos rfl, hnot, if_false, hc0,
      beq_self_eq_true, if_true, Storage.intOf] at hdupins ⊢
    simp [hdupins]
  · simp only [Storage.table_insert_row, if_neg hroot, hnot, if_false, hc0,
      beq_self_eq_true, if_true, Storage.intOf, hroot] at hdupins ⊢
    simp [hdupins]

/-- Witness for claim C2: inserting a second row with the already-indexed
key 1 into the concrete one-row table. -/
theorem claim_C2_duplicate_key_insert_ok_witness :
    toPattern32 1 ∈ (⟨[1], [⟨1, 8⟩]⟩ : Btree.Leaf).keys ∧
    exTable.primary_index = some ⟨[1], [⟨1, 8⟩]⟩ ∧
    Query.execute_insert i2dZero exTable [Storage.Value.vInt 1] =
      (RistrettoResult.ok,
        { exTable with
            root_page := if exTable.root_page = 0 then 1 else exTable.root_page,
            row_count := exTable.row_count + 1,
            rows := exTable.rows ++
              [Query.setAllValues exTable [Storage.Value.vInt 1]] }) :=
  ⟨by decide, by decide,
   claim_C2_duplicate_key_insert_ok i2dZero exTable
     ⟨"a", Storage.DataType.integer, 0, 8⟩ [] 1 [] [Storage.Value.vInt 1]
     ⟨[1], [⟨1, 8⟩]⟩ (by decide) rfl (by decide) (by decide) (by decide)
     (by decide) (by decide) (by decide)⟩

/-- Claim C1 evaluated at its failing input: the table `t(a INTEGER)` holds
one row with `a = 1`; the query `SELECT * FROM t WHERE a < 1` plans as a
generic TableScan (the filter is not an index equality, and with one row
the column-vector path is not taken even though the filter qualifies for
it); the executor delivers the row (rendered "1") to the row sink even
though the WHERE predicate evaluates to false on it, under every real
comparison order `rlt`; the column-vector path on the same table and
filter delivers no row, so the two paths disagree. -/
theorem claim_C1_generic_scan_ignores_where (rlt : Nat → Nat → Bool) :
    Db.ristretto_query i2dZero exCatalog1
      (some (Query.Statement.select "t" none (some exFilter))) true =
      (RistrettoResult.ok, exCatalog1, [[Query.CString.str [49]]]) ∧
    Query.plan_statement (Query.Statement.select "t" none (some exFilter))
      exCatalog1 = some (Query.QueryPlan.tableScan exTable (some exFilter) none) ∧
    Query.can_use_simd_filter (some exFilter) exTable = true ∧
    (Query.execute_select_simd exTable (some exFilter)).2 = [] ∧
    Query.evaluate_expr rlt exFilter (exTable.rows.getD 0 []) exTable = false := by
  refine ⟨by decide, by decide, by decide, by decide, ?_⟩
  have hval : Query.evaluate_expr_to_value (Query.Expr.col none "a")
      (exTable.rows.getD 0 []) exTable = some (Storage.Value.vInt 1) := by decide
  show Query.evaluate_expr rlt
    (Query.Expr.bin Query.BinaryOp.opLt (Query.Expr.col none "a")
      (Query.Expr.lit (Storage.Value.vInt 1))) (exTable.rows.getD 0 []) exTable = false
  rw [Query.evaluate_expr]
  rw [Query.evaluate_comparison, hval]
  dsimp only [Query.evaluate_expr_to_value]
  simp [Query.storage_value_compare]
  all_goals decide

/-- A 64-bit little-endian image is 8 bytes. -/
theorem le64_length (v : Nat) : (le64 v).length = 8 := by
  simp [le64]

/-- Reading back a little-endian 64-bit image recovers the value. -/
theorem fromLe64_le64 (v : Nat) (h : v < 2 ^ 64) : fromLe64 (le64 v) = v := by
  have hr : List.range 8 = [0, 1, 2, 3, 4, 5, 6, 7] := rfl
  simp only [le64, hr, List.map_cons, List.map_nil, fromLe64, List.take,
    List.foldr_cons, List.foldr_nil]
  norm_num
  omega

/-- Round trip of the two's-complement pattern on the `int64_t` range. -/
theorem ofPattern64_toPattern64 (i : Int) (h1 : -(2 ^ 63) ≤ i)
    (h2 : i < 2 ^ 63) : ofPattern64 (toPattern64 i) = i := by
  rw [toPattern64, ofPattern64]
  split <;> omega

/-- The two's-complement pattern is a 64-bit value. -/
theorem toPattern64_lt (i : Int) : toPattern64 i < 2 ^ 64 := by
  rw [toPattern64]
  omega

/-- Writing into the zero tail right after a prefix splices the bytes in
place. -/
theorem writeBytes_append (P R bs : List Nat) :
    writeBytes (P ++ R) P.length bs = P ++ bs ++ R.drop bs.length := by
  rw [writeBytes, List.take_left, List.drop_add, List.drop_left]

/-- Dropping from an all-zero buffer leaves an all-zero buffer. -/
theorem drop_replicate_zero (k n : Nat) (h : k ≤ n) :
    (List.replicate n (0 : Nat)).drop k = List.replicate (n - k) 0 := by
  conv_lhs => rw [show n = k + (n - k) by omega, List.replicate_add]
  exact List.drop_left' (by simp)

/-- The zero-free prefix of a buffer that starts with zero-free bytes and
then a zero byte is exactly those bytes. -/
theorem takeWhile_prefix_zero (A B : List Nat)
    (hA : ∀ a ∈ A, a ≠ 0) :
    ((A ++ 0 :: B).takeWhile (fun b => b != 0)) = A := by
  induction A with
  | nil => simp [List.takeWhile_cons]
  | cons a A ih =>
    have ha : a ≠ 0 := hA a (by simp)
    rw [List.cons_append, List.takeWhile_cons, if_pos (by simpa using ha),
      ih (fun x hx => hA x (by simp [hx]))]

/-- Taking up to the buffer length then capping is the same as capping. -/
theorem take_min_self_left (data : List Nat) (x : Nat) :
    data.take (min data.length x) = data.take x := by
  rcases le_total data.length x with h | h
  · rw [min_eq_left h, List.take_of_length_le le_rfl, List.take_of_length_le h]
  · rw [min_eq_right h]

/-- Under the canonical layout, packing writes each value into its own
slot: the row buffer is the prefix already written followed by the
concatenated slot images. -/
theorem packFold_join :
    ∀ (cols : List TableV2.ColumnDesc) (values : List TableV2.Value) (P : List Nat),
      TableV2.layoutOkFrom P.length cols →
      TableV2.valuesMatch cols values →
      TableV2.packFold cols values
          (P ++ List.replicate ((cols.map (fun c => c.length)).sum) 0) =
        some (P ++ (List.zipWith TableV2.encodeSlot cols values).join) := by
  intro cols
  induction cols with
  | nil =>
    intro values P hl hm
    cases values with
    | nil => simp [TableV2.packFold]
    | cons v vs => exact absurd hm (by simp [TableV2.valuesMatch])
  | cons c cs ih =>
    intro values P hl hm
    cases values with
    | nil => exact absurd hm (by simp [TableV2.valuesMatch])
    | cons v vs =>
      obtain ⟨cname, ctype, clen, coff⟩ := c
      obtain ⟨vty, vpl, vnull⟩ := v
      obtain ⟨hoff, hty, hl2⟩ := hl
      obtain ⟨hnull, htype, hpayload, hm2⟩ := hm
      simp only at hoff hty hpayload hnull htype hl2
      subst hnull
      subst hoff
      rw [TableV2.packFold]
      simp only [List.headD_cons, List.tail_cons]
      rw [TableV2.packColumn]
      simp only [Bool.false_eq_true, if_false]
      cases ctype with
      | integer =>
        cases vpl with
        | real b => exact hpayload.elim
        | text d => exact hpayload.elim
        | int i =>
          subst hty
          dsimp only [TableV2.intField]
          rw [List.map_cons, List.sum_cons, List.replicate_add, writeBytes_append]
          rw [le64_length, List.drop_left' (by simp)]
          rw [ih vs (P ++ le64 (toPattern64 i)) (by simpa [le64_length] using hl2) hm2]
          simp [TableV2.encodeSlot, TableV2.intField, List.append_assoc]
      | real =>
        cases vpl with
        | int i => exact hpayload.elim
        | text d => exact hpayload.elim
        | real b =>
          subst hty
          dsimp only [TableV2.realField]
          rw [List.map_cons, List.sum_cons, List.replicate_add, writeBytes_append]
          rw [le64_length, List.drop_left' (by simp)]
          rw [ih vs (P ++ le64 b) (by simpa [le64_length] using hl2) hm2]
          simp [TableV2.encodeSlot, TableV2.realField, List.append_assoc]
      | text =>
        cases vpl with
        | int i => exact hpayload.elim
        | real b => exact hpayload.elim
        | text dd =>
          obtain ⟨data, rfl, hnz⟩ := hpayload
          obtain ⟨h1, h255⟩ := hty
          dsimp only [TableV2.textField]
          set cl := min data.length (clen - 1) with hcl
          have hclle : cl ≤ data.length := by omega
          have hcl1 : cl + 1 ≤ clen := by omega
          have hlenbytes : (data.take cl ++ [0]).length = cl + 1 := by
            simp [List.length_take]
            omega
          rw [List.map_cons, List.sum_cons, writeBytes_append, hlenbytes]
          dsimp only
          rw [drop_replicate_zero _ _ (by omega)]
          have hsplit : clen + (cs.map (fun c => c.length)).sum - (cl + 1) =
              (clen - (cl + 1)) + (cs.map (fun c => c.length)).sum := by omega
          rw [hsplit, List.replicate_add, ← List.append_assoc]
          have hplen : ((P ++ (data.take cl ++ [0])) ++
              List.replicate (clen - (cl + 1)) 0).length = P.length + clen := by
            simp [List.length_take]
            omega
          have hl3 : TableV2.layoutOkFrom ((P ++ (data.take cl ++ [0])) ++
              List.replicate (clen - (cl + 1)) 0).length cs := by
            rw [hplen]; exact hl2
          rw [ih vs _ hl3 hm2]
          simp [TableV2.encodeSlot, TableV2.textField, List.append_assoc]
      | nullable => exact hpayload.elim

/-- Reading a column slot that sits right after the prefix returns
exactly the slot. -/
theorem readBytes_slot (P slot rest : List Nat) (n : Nat) (h : slot.length = n) :
    readBytes (P ++ slot ++ rest) P.length n = slot := by
  rw [readBytes, List.append_assoc, List.drop_left, ← h, List.take_left]

/-- Each slot image is exactly as long as its column. -/
theorem encodeSlot_length (c : TableV2.ColumnDesc) (v : TableV2.Value)
    (h8 : c.type = TableV2.ColumnType.integer ∨ c.type = TableV2.ColumnType.real →
      c.length = 8)
    (h1 : 1 ≤ c.length) :
    (TableV2.encodeSlot c v).length = c.length := by
  obtain ⟨cname, ctype, clen, coff⟩ := c
  cases ctype with
  | integer =>
    have h := h8 (Or.inl rfl)
    simp only at h
    simp [TableV2.encodeSlot, le64_length, h]
  | real =>
    have h := h8 (Or.inr rfl)
    simp only at h
    simp [TableV2.encodeSlot, le64_length, h]
  | text =>
    simp only at h1
    rcases hv : TableV2.textField v with _ | data
    · simp [TableV2.encodeSlot, hv]
    · simp only [TableV2.encodeSlot, hv, List.length_append, List.length_take,
        List.length_replicate, List.length_cons, List.length_nil]
      omega
  | nullable => simp [TableV2.encodeSlot]

/-- Under the canonical layout, unpacking a buffer made of a prefix
followed by the concatenated slot images of matching values yields the
truncating read-back of each value. -/
theorem unpack_join :
    ∀ (cols : List TableV2.ColumnDesc) (values : List TableV2.Value) (P : List Nat),
      TableV2.layoutOkFrom P.length cols →
      TableV2.valuesMatch cols values →
      TableV2.table_unpack_row cols
          (P ++ (List.zipWith TableV2.encodeSlot cols values).join) =
        some (List.zipWith TableV2.truncateVal cols values) := by
  intro cols
  induction cols with
  | nil =>
    intro values P _ hm
    cases values with
    | nil => simp [TableV2.table_unpack_row]
    | cons v vs => exact absurd hm (by simp [TableV2.valuesMatch])
  | cons c cs ih =>
    intro values P hl hm
    cases values with
    | nil => exact absurd hm (by simp [TableV2.valuesMatch])
    | cons v vs =>
      obtain ⟨hoff, hty, hl2⟩ := hl
      obtain ⟨hnull, htype, hpayload, hm2⟩ := hm
      have hlen : (TableV2.encodeSlot c v).length = c.length := by
        apply encodeSlot_length
        · intro hi
          obtain ⟨cn, cty, cl, co⟩ := c
          simp only at hi hty ⊢
          rcases hi with hi | hi <;> subst hi <;> simp only at hty <;> omega
        · obtain ⟨cn, cty, cl, co⟩ := c
          simp only at hty ⊢
          cases cty <;> simp only at hty <;> first
            | omega
            | exact hty.elim
      have hbuf : P ++ (List.zipWith TableV2.encodeSlot (c :: cs) (v :: vs)).join =
          P ++ TableV2.encodeSlot c v ++ (List.zipWith TableV2.encodeSlot cs vs).join := by
        simp [List.append_assoc]
      have htail : TableV2.table_unpack_row cs
          (P ++ TableV2.encodeSlot c v ++ (List.zipWith TableV2.encodeSlot cs vs).join) =
          some (List.zipWith TableV2.truncateVal cs vs) := by
        have := ih vs (P ++ TableV2.encodeSlot c v)
          (by simpa [List.length_append, hlen, hoff] using hl2) hm2
        simpa [List.append_assoc] using this
      obtain ⟨cname, ctype, clen, coff⟩ := c
      obtain ⟨vty, vpl, vnull⟩ := v
      simp only at hoff hty hpayload hnull htype hlen
      subst hnull
      subst hoff
      rw [TableV2.table_unpack_row, hbuf]
      cases ctype with
      | integer =>
        cases vpl with
        | real b => exact hpayload.elim
        | text d => exact hpayload.elim
        | int i =>
          rw [TableV2.unpackColumn]
          dsimp only
          have hr : readBytes (P ++ TableV2.encodeSlot
              ⟨cname, TableV2.ColumnType.integer, clen, P.length⟩
              ⟨vty, TableV2.Payload.int i, false⟩ ++
              (List.zipWith TableV2.encodeSlot cs vs).join) P.length 8 =
              le64 (toPattern64 i) := by
            have : TableV2.encodeSlot
                ⟨cname, TableV2.ColumnType.integer, clen, P.length⟩
                ⟨vty, TableV2.Payload.int i, false⟩ = le64 (toPattern64 i) := by
              simp [TableV2.encodeSlot, TableV2.intField]
            rw [this]
            exact readBytes_slot _ _ _ _ (le64_length _)
          rw [hr, fromLe64_le64 _ (toPattern64_lt i),
            ofPattern64_toPattern64 i hpayload.1 hpayload.2, htail]
          simp [TableV2.truncateVal]
      | real =>
        cases vpl with
        | int i => exact hpayload.elim
        | text d => exact hpayload.elim
        | real b =>
          rw [TableV2.unpackColumn]
          dsimp only
          have hr : readBytes (P ++ TableV2.encodeSlot
              ⟨cname, TableV2.ColumnType.real, clen, P.length⟩
              ⟨vty, TableV2.Payload.real b, false⟩ ++
              (List.zipWith TableV2.encodeSlot cs vs).join) P.length 8 =
              le64 b := by
            have : TableV2.encodeSlot
                ⟨cname, TableV2.ColumnType.real, clen, P.length⟩
                ⟨vty, TableV2.Payload.real b, false⟩ = le64 b := by
              simp [TableV2.encodeSlot, TableV2.realField]
            rw [this]
            exact readBytes_slot _ _ _ _ (le64_length _)
          rw [hr, fromLe64_le64 _ hpayload, htail]
          simp [TableV2.truncateVal]
      | text =>
        cases vpl with
        | int i => exact hpayload.elim
        | real b => exact hpayload.elim
        | text dd =>
          obtain ⟨data, rfl, hnz⟩ := hpayload
          rw [TableV2.unpackColumn]
          dsimp only
          have hr : readBytes (P ++ TableV2.encodeSlot
              ⟨cname, TableV2.ColumnType.text, clen, P.length⟩
              ⟨vty, TableV2.Payload.text (some data), false⟩ ++
              (List.zipWith TableV2.encodeSlot cs vs).join) P.length clen =
              TableV2.encodeSlot ⟨cname, TableV2.ColumnType.text, clen, P.length⟩
                ⟨vty, TableV2.Payload.text (some data), false⟩ :=
            readBytes_slot _ _ _ _ hlen
          rw [hr]
          have hslot : TableV2.encodeSlot
              ⟨cname, TableV2.ColumnType.text, clen, P.length⟩
              ⟨vty, TableV2.Payload.text (some data), false⟩ =
              data.take (min data.length (clen - 1)) ++
                0 :: List.replicate (clen - (min data.length (clen - 1) + 1)) 0 := by
            simp [TableV2.encodeSlot, TableV2.textField, List.append_assoc]
          rw [hslot] at htail ⊢
          rw [takeWhile_prefix_zero _ _
            (fun a ha => hnz a (List.mem_of_mem_take ha))]
          rw [take_min_self_left] at htail ⊢
          rw [htail]
          simp [TableV2.truncateVal]
      | nullable => exact hpayload.elim

/-- When every TEXT value fits inside its slot, the truncating read-back
is the identity on the whole row. -/
theorem zipWith_truncateVal_fits :
    ∀ (cols : List TableV2.ColumnDesc) (values : List TableV2.Value),
      TableV2.valuesMatch cols values →
      TableV2.fitsAll cols values →
      List.zipWith TableV2.truncateVal cols values = values := by
  intro cols
  induction cols with
  | nil =>
    intro values hm _
    cases values with
    | nil => simp
    | cons v vs => exact absurd hm (by simp [TableV2.valuesMatch])
  | cons c cs ih =>
    intro values hm hf
    cases values with
    | nil => exact absurd hm (by simp [TableV2.valuesMatch])
    | cons v vs =>
      obtain ⟨hnull, htype, hpayload, hm2⟩ := hm
      obtain ⟨hfit, hf2⟩ := hf
      rw [List.zipWith_cons_cons, ih vs hm2 hf2]
      obtain ⟨cname, ctype, clen, coff⟩ := c
      obtain ⟨vty, vpl, vnull⟩ := v
      simp only at hnull htype hpayload hfit
      subst hnull
      cases ctype with
      | integer =>
        cases vpl with
        | real b => exact hpayload.elim
        | text d => exact hpayload.elim
        | int i => subst htype; simp [TableV2.truncateVal]
      | real =>
        cases vpl with
        | int i => exact hpayload.elim
        | text d => exact hpayload.elim
        | real b => subst htype; simp [TableV2.truncateVal]
      | text =>
        cases vpl with
        | int i => exact hpayload.elim
        | real b => exact hpayload.elim
        | text dd =>
          obtain ⟨data, rfl, hnz⟩ := hpayload
          subst htype
          simp only [TableV2.truncateVal, List.cons.injEq, and_true]
          rw [List.take_of_length_le (by omega)]
      | nullable => exact hpayload.elim

/-- Claim C6: for every canonical Engine B column layout and every list
of matching non-null values, `table_unpack_row` after `table_pack_row`
returns exactly the truncating read-back of each value — INTEGER and REAL
come back unchanged and TEXT comes back cut to its first `length - 1`
bytes — and when every TEXT value already fits in `length - 1` bytes the
round trip is the identity on the whole row. -/
theorem claim_C6_pack_unpack_roundtrip
    (cols : List TableV2.ColumnDesc) (row_size : Nat) (values : List TableV2.Value)
    (hl : TableV2.layoutOk cols row_size) (hm : TableV2.valuesMatch cols values) :
    (TableV2.table_pack_row cols row_size values).bind
        (TableV2.table_unpack_row cols) =
      some (List.zipWith TableV2.truncateVal cols values) ∧
    (TableV2.fitsAll cols values →
      (TableV2.table_pack_row cols row_size values).bind
          (TableV2.table_unpack_row cols) = some values) := by
  have h0 : TableV2.layoutOkFrom (List.length ([] : List Nat)) cols := by
    simpa using hl.1
  have hp := packFold_join cols values [] h0 hm
  simp only [List.nil_append] at hp
  have hmain : (TableV2.table_pack_row cols row_size values).bind
      (TableV2.table_unpack_row cols) =
      some (List.zipWith TableV2.truncateVal cols values) := by
    rw [TableV2.table_pack_row, hl.2, hp, Option.some_bind]
    have hu := unpack_join cols values [] h0 hm
    simpa using hu
  exact ⟨hmain, fun hf => by rw [hmain, zipWith_truncateVal_fits cols values hm hf]⟩

/-- Witness for C6 at a concrete layout and row: an INTEGER, a REAL and a
4-byte TEXT column, with a 5-byte string that reads back cut to "ABC". -/
theorem claim_C6_pack_unpack_roundtrip_witness :
    (TableV2.table_pack_row exColsC6 20 exValsC6).bind
        (TableV2.table_unpack_row exColsC6) =
      some (List.zipWith TableV2.truncateVal exColsC6 exValsC6) ∧
    (TableV2.fitsAll exColsC6 exValsC6 →
      (TableV2.table_pack_row exColsC6 20 exValsC6).bind
          (TableV2.table_unpack_row exColsC6) = some exValsC6) :=
  claim_C6_pack_unpack_roundtrip exColsC6 20 exValsC6
    (by exact ⟨⟨rfl, rfl, rfl, rfl, rfl, ⟨by norm_num, by norm_num⟩, trivial⟩, rfl⟩)
    (by
      refine ⟨rfl, rfl, ⟨by norm_num, by norm_num⟩, rfl, rfl, by norm_num [TableV2.value_real],
        rfl, rfl, ⟨[65, 66, 67, 68, 69], rfl, by decide⟩, trivial⟩)

end RistrettoSpec
